import Mathlib

/-!
The file-backed record store of `db.js` (js-cardio-async).

A shallow embedding of `src/db.js` (`log`, `get`, `set`, `remove`, `deleteFile`,
`createFile`) together with the part of the JavaScript platform those functions
use: JSON values, `JSON.parse`, `JSON.stringify`, property access, string
conversion, truthiness, and the `fs.promises` calls on a file system of regular
files and directories.

Conventions of the embedding.

* A path is the identity of a file: two different path strings name two
  different files.
* `Date.now()` is the parameter `now` of every operation.
* An operation is run to completion in one step (no interleaving), and yields a
  `Settled` promise: the file system it leaves and the rejection reason, if any.
* A Number is an IEEE double: a literal is rounded to the nearest double, ties
  to even, and printed with the fewest digits that round back to it.
* A string is the text it is once written to a file in UTF-8: an escaped pair of
  surrogates is the character it encodes, an unpaired one the replacement
  character U+FFFD.
* Memory is unbounded: no string or array is too long, no nesting too deep.
* The built-in prototypes are those of Node.js 12.
-/

namespace Db

/-! ## Decimal digits -/

/-- The character of a decimal digit. -/
def digitChar (d : Nat) : Char := Char.ofNat (48 + d)

/-- Decimal digits of `n`, most significant first, by recursion on fuel. -/
def natDigitsF : Nat → Nat → List Char
  | 0, _ => []
  | fuel + 1, n =>
    if n < 10 then [digitChar n]
    else natDigitsF fuel (n / 10) ++ [digitChar (n % 10)]

/-- Decimal digits of a natural number. -/
def natDigits (n : Nat) : List Char := natDigitsF (n + 1) n

/-- Decimal digit test. -/
def isDigit (c : Char) : Bool := decide (48 ≤ c.toNat) && decide (c.toNat ≤ 57)

/-- Value of a digit string read after the value `acc`. -/
def digitsValue : List Char → Nat → Nat
  | [], acc => acc
  | c :: cs, acc => digitsValue cs (acc * 10 + (c.toNat - 48))

/-- Split off the leading digits. -/
def spanDigits : List Char → List Char × List Char
  | [] => ([], [])
  | c :: cs => if isDigit c then ((spanDigits cs).1.cons c, (spanDigits cs).2) else ([], c :: cs)

/-! ## Numbers -/

/-- A Number value: the finite double `mant * 2 ^ exp` with its sign, or an
infinity. Zero is `finite false 0 0`; the negative zero is not told apart from
it, as no operation here distinguishes them. -/
inductive JSNum where
  | finite (negative : Bool) (mant : Nat) (exp : Int)
  | infinite (negative : Bool)
  deriving DecidableEq

/-- Number of binary digits, by recursion on fuel. -/
def bitLengthF : Nat → Nat → Nat
  | 0, _ => 0
  | fuel + 1, n => if n = 0 then 0 else bitLengthF fuel (n / 2) + 1

/-- Number of binary digits of `n`. -/
def bitLength (n : Nat) : Nat := bitLengthF n n

/-- The double nearest to the rational `n / d` (`d` positive), ties to even:
its mantissa and binary exponent, or `none` when it overflows to infinity. -/
def roundToDouble (n d : Nat) : Option (Nat × Int) :=
  if n = 0 then some (0, 0)
  else
    let t : Int := (bitLength n : Int) - (bitLength d : Int)
    let reaches : Bool :=
      if 0 ≤ t then decide (d * 2 ^ t.toNat ≤ n) else decide (d ≤ n * 2 ^ (-t).toNat)
    let l : Int := if reaches then t else t - 1
    let e : Int := max (l - 52) (-1074)
    let num : Nat := if 0 ≤ e then n else n * 2 ^ (-e).toNat
    let den : Nat := if 0 ≤ e then d * 2 ^ e.toNat else d
    let q : Nat := num / den
    let r : Nat := num % den
    let q1 : Nat := if den < 2 * r ∨ (2 * r = den ∧ q % 2 = 1) then q + 1 else q
    let m : Nat := if q1 = 2 ^ 53 then 2 ^ 52 else q1
    let e1 : Int := if q1 = 2 ^ 53 then e + 1 else e
    if m = 0 then some (0, 0) else if 971 < e1 then none else some (m, e1)

/-- The rational `s * 10 ^ p` as numerator and denominator. -/
def decimalRatio (s : Nat) (p : Int) : Nat × Nat :=
  if 0 ≤ p then (s * 10 ^ p.toNat, 1) else (s, 10 ^ (-p).toNat)

/-- The rational `m * 2 ^ e` as numerator and denominator. -/
def doubleRatio (m : Nat) (e : Int) : Nat × Nat :=
  if 0 ≤ e then (m * 2 ^ e.toNat, 1) else (m, 2 ^ (-e).toNat)

/-- The Number value of the decimal `s * 10 ^ p` with the given sign. A decimal
of 310 digits or more before the point is beyond every double, one below
`10 ^ -324` rounds to zero. -/
def numberOfDecimal (negative : Bool) (s : Nat) (p : Int) : JSNum :=
  if s = 0 then .finite false 0 0
  else if 310 ≤ ((natDigits s).length : Int) + p then .infinite negative
  else if ((natDigits s).length : Int) + p ≤ -324 then .finite false 0 0
  else
    match roundToDouble (decimalRatio s p).1 (decimalRatio s p).2 with
    | none => .infinite negative
    | some (m, e) => if m = 0 then .finite false 0 0 else .finite negative m e

/-- The Number value of a natural number. -/
def numberOfNat (n : Nat) : JSNum := numberOfDecimal false n 0

/-- The least `j` from `j` on with `d ≤ n * 10 ^ j`, by recursion on fuel. -/
def firstScale : Nat → Nat → Nat → Nat → Nat
  | 0, j, _, _ => j
  | fuel + 1, j, n, d => if d ≤ n * 10 ^ j then j else firstScale fuel (j + 1) n d

/-- The position of the decimal point of the positive rational `n / d`: the
`n0` with `10 ^ (n0 - 1) ≤ n / d < 10 ^ n0`. -/
def pointPosition (n d : Nat) : Int :=
  if d ≤ n then ((natDigits (n / d)).length : Int)
  else 1 - (firstScale 400 1 n d : Int)

/-- Remove the trailing zeros of `s`, raising the exponent. -/
def stripZeros : Nat → Nat → Int → Nat × Int
  | 0, s, p => (s, p)
  | fuel + 1, s, p => if s ≠ 0 ∧ s % 10 = 0 then stripZeros fuel (s / 10) (p + 1) else (s, p)

/-- The decimal `s * 10 ^ p` of `k` digits or more that Number::toString prints
for the double `m * 2 ^ e`: the shortest one that rounds to the double, the
nearest to it among those, the even one on a tie. After 17 digits the exact
expansion is taken. -/
def shortestF : Nat → Nat → Nat → Int → Int → Nat × Int
  | 0, _, m, e, _ => if 0 ≤ e then (m * 2 ^ e.toNat, 0) else (m * 5 ^ (-e).toNat, e)
  | fuel + 1, k, m, e, n0 =>
    let p : Int := n0 - (k : Int)
    let n := (doubleRatio m e).1
    let d := (doubleRatio m e).2
    let num : Nat := if 0 ≤ p then n else n * 10 ^ (-p).toNat
    let den : Nat := if 0 ≤ p then d * 10 ^ p.toNat else d
    let lo : Nat := num / den
    let rem : Nat := num % den
    let hi : Nat := lo + 1
    let okLo : Bool :=
      decide (roundToDouble (decimalRatio lo p).1 (decimalRatio lo p).2 = some (m, e))
    let okHi : Bool :=
      decide (roundToDouble (decimalRatio hi p).1 (decimalRatio hi p).2 = some (m, e))
    if okLo && okHi then
      if 2 * rem < den then (lo, p)
      else if den < 2 * rem then (hi, p)
      else if lo % 2 = 0 then (lo, p) else (hi, p)
    else if okLo then (lo, p)
    else if okHi then (hi, p)
    else shortestF fuel (k + 1) m e n0

/-- The digits `s` and decimal exponent `p` that Number::toString prints for the
positive double `m * 2 ^ e`, `s` without trailing zero. -/
def shortest (m : Nat) (e : Int) : Nat × Int :=
  stripZeros 1100
    (shortestF 17 1 m e (pointPosition (doubleRatio m e).1 (doubleRatio m e).2)).1
    (shortestF 17 1 m e (pointPosition (doubleRatio m e).1 (doubleRatio m e).2)).2

/-- The parts of a number literal: the digits before the point, the digits
after it (none: no point), and the sign and digits of the exponent, if any. -/
structure Lexeme where
  intDigits : List Char
  fracDigits : List Char
  exponent : Option (Bool × List Char)

/-- The text of the fraction of a number literal: nothing without digits. -/
def fractionText : List Char → List Char
  | [] => []
  | c :: cs => '.' :: c :: cs

/-- The text of the exponent of a number literal. -/
def exponentText : Option (Bool × List Char) → List Char
  | none => []
  | some (negative, ds) => 'e' :: (if negative then '-' else '+') :: ds

/-- The value of the exponent of a number literal. -/
def exponentValue : Option (Bool × List Char) → Int
  | none => 0
  | some (negative, ds) =>
    if negative then - (digitsValue ds 0 : Int) else (digitsValue ds 0 : Int)

/-- The text of a number literal. -/
def Lexeme.render (x : Lexeme) : List Char :=
  x.intDigits ++ (fractionText x.fracDigits ++ exponentText x.exponent)

/-- The decimal a number literal denotes: its digits and decimal exponent. -/
def Lexeme.decimal (x : Lexeme) : Nat × Int :=
  (digitsValue (x.intDigits ++ x.fracDigits) 0,
    exponentValue x.exponent - (x.fracDigits.length : Int))

/-- Number::toString in radix 10, for the digits `ds` of the decimal and the
position `n` of its decimal point: plain digits up to `10 ^ 21`, a fraction down
to `10 ^ -6`, the exponential form beyond. -/
def layoutDigits (ds : List Char) (n : Int) : Lexeme :=
  if (ds.length : Int) ≤ n ∧ n ≤ 21 then
    ⟨ds ++ List.replicate (n - (ds.length : Int)).toNat '0', [], none⟩
  else if 0 < n ∧ n ≤ 21 then
    ⟨ds.take n.toNat, ds.drop n.toNat, none⟩
  else if -6 < n ∧ n ≤ 0 then
    ⟨['0'], List.replicate (-n).toNat '0' ++ ds, none⟩
  else
    ⟨ds.take 1, ds.drop 1, some (decide (n - 1 < 0), natDigits (n - 1).natAbs)⟩

/-- The literal Number::toString prints for the positive double `m * 2 ^ e`. -/
def numberLexeme (m : Nat) (e : Int) : Lexeme :=
  layoutDigits (natDigits (shortest m e).1)
    ((shortest m e).2 + ((natDigits (shortest m e).1).length : Int))

/-- Number::toString in radix 10. -/
def formatNum : JSNum → List Char
  | .infinite false => ['I', 'n', 'f', 'i', 'n', 'i', 't', 'y']
  | .infinite true => ['-', 'I', 'n', 'f', 'i', 'n', 'i', 't', 'y']
  | .finite negative m e =>
    if m = 0 then ['0']
    else if negative then '-' :: (numberLexeme m e).render
    else (numberLexeme m e).render

/-- The Number that `JSON.parse` reads from the text `JSON.stringify` writes for
a Number; `none` when the text is `null` (an infinity). -/
def rereadNum : JSNum → Option JSNum
  | .infinite _ => none
  | .finite negative m e =>
    if m = 0 then some (.finite false 0 0)
    else some (numberOfDecimal negative (numberLexeme m e).decimal.1
      (numberLexeme m e).decimal.2)

/-- The natural number a Number is, if it is one. -/
def JSNum.toNat? : JSNum → Option Nat
  | .infinite _ => none
  | .finite negative m e =>
    if m = 0 then some 0
    else if negative then none
    else if 0 ≤ e then some (m * 2 ^ e.toNat)
    else if m % 2 ^ (-e).toNat = 0 then some (m / 2 ^ (-e).toNat)
    else none

/-! ## JavaScript values -/

/-- The JavaScript values that occur in documents and arguments. An object is
the list of its own properties in property order; a hole of an array is
`undefined`. -/
inductive JSVal where
  | undefined
  | null
  | bool (b : Bool)
  | num (x : JSNum)
  | str (s : String)
  | arr (xs : List JSVal)
  | obj (props : List (String × JSVal))

/-- The abstract operation ToBoolean on a Number: zero is falsy. -/
def JSNum.truthy : JSNum → Bool
  | .finite _ m _ => m != 0
  | .infinite _ => true

/-- The abstract operation ToBoolean, the test behind `!value`. -/
def JSVal.truthy : JSVal → Bool
  | .undefined => false
  | .null => false
  | .bool b => b
  | .num x => x.truthy
  | .str s => s != ""
  | .arr _ => true
  | .obj _ => true

/-- The own property `key` of an object, if it has one. -/
def getOwn : List (String × JSVal) → String → Option JSVal
  | [], _ => none
  | (k, v) :: ps, key => if k = key then some v else getOwn ps key

/-- The names of the properties every plain object inherits from
`Object.prototype`. -/
def objectPrototypeKeys : List String :=
  ["constructor", "__defineGetter__", "__defineSetter__", "hasOwnProperty",
   "__lookupGetter__", "__lookupSetter__", "isPrototypeOf", "propertyIsEnumerable",
   "toString", "valueOf", "__proto__", "toLocaleString"]

/-- What `obj[key]` evaluates to: a value of the document, or a built-in of the
engine reached through the prototype, given by its string form. -/
inductive Looked where
  | value (v : JSVal)
  | builtin (display : String)

/-- The string form of the built-in `Object.prototype[key]`. -/
def builtinDisplay (key : String) : String :=
  if key = "__proto__" then "[object Object]"
  else if key = "constructor" then "function Object() \x7b [native code] \x7d"
  else "function " ++ key ++ "() \x7b [native code] \x7d"

/-- The expression `obj[key]` on a plain object: the own property, else the
inherited one, else `undefined`. -/
def getProp (props : List (String × JSVal)) (key : String) : Looked :=
  match getOwn props key with
  | some v => .value v
  | none =>
    if key ∈ objectPrototypeKeys then .builtin (builtinDisplay key)
    else .value .undefined

/-- ToBoolean of the result of a property read; built-ins are objects. -/
def Looked.truthy : Looked → Bool
  | .value v => v.truthy
  | .builtin _ => true

/-- The array index a property name is, if it is one: the decimal, without
leading zero, of a number below `2 ^ 32 - 1`. -/
def arrayIndex (key : String) : Option Nat :=
  match key.data with
  | [] => none
  | c :: cs =>
    if (c :: cs).all isDigit && (c != '0' || cs.isEmpty)
        && decide (digitsValue (c :: cs) 0 < 4294967295) then
      some (digitsValue (c :: cs) 0)
    else none

/-- A new property `key` comes before the existing property `k`: array indices
come first, in ascending order, the other names after them in creation order. -/
def placedBefore (key k : String) : Bool :=
  match arrayIndex key, arrayIndex k with
  | some i, some j => decide (i < j)
  | some _, none => true
  | none, _ => false

/-- Overwrite the value of the own property `key`. -/
def updateProp : List (String × JSVal) → String → JSVal → List (String × JSVal)
  | [], _, _ => []
  | (k, w) :: ps, key, v =>
    if k = key then (k, v) :: ps else (k, w) :: updateProp ps key v

/-- Add the new property `key` at its place in property order. -/
def insertProp : List (String × JSVal) → String → JSVal → List (String × JSVal)
  | [], key, v => [(key, v)]
  | (k, w) :: ps, key, v =>
    if placedBefore key k then (key, v) :: (k, w) :: ps
    else (k, w) :: insertProp ps key v

/-- CreateDataProperty: overwrite the own property where it is, or add it. -/
def defineProp (props : List (String × JSVal)) (key : String) (v : JSVal) :
    List (String × JSVal) :=
  if (getOwn props key).isSome then updateProp props key v
  else insertProp props key v

/-- The assignment `obj[key] = value` on a plain object. The name `__proto__`,
when it is not an own property, reaches the setter of `Object.prototype`, which
adds no own property. -/
def assign (props : List (String × JSVal)) (key : String) (v : JSVal) :
    List (String × JSVal) :=
  if key = "__proto__" ∧ (getOwn props key).isNone then props
  else defineProp props key v

/-- The statement `delete obj[key]`. -/
def deleteProp : List (String × JSVal) → String → List (String × JSVal)
  | [], _ => []
  | (k, w) :: ps, key => if k = key then deleteProp ps key else (k, w) :: deleteProp ps key

/-! ## String conversion -/

/-- Join strings with commas, as `Array.prototype.join` does. -/
def joinComma : List String → String
  | [] => ""
  | [s] => s
  | s :: t :: rest => s ++ "," ++ joinComma (t :: rest)

mutual
/-- The abstract operation ToString, as a template literal applies it; `none`
is a thrown TypeError (an object whose own `toString` is not callable). -/
def toStr : JSVal → Option String
  | .undefined => some "undefined"
  | .null => some "null"
  | .bool true => some "true"
  | .bool false => some "false"
  | .num x => some (String.mk (formatNum x))
  | .str s => some s
  | .arr xs => (elemStrs xs).map joinComma
  | .obj props => if (getOwn props "toString").isSome then none else some "[object Object]"
/-- The strings `join` makes of the elements: empty for `null` and
`undefined`, ToString otherwise. -/
def elemStrs : List JSVal → Option (List String)
  | [] => some []
  | .undefined :: xs => (elemStrs xs).map (fun l => "" :: l)
  | .null :: xs => (elemStrs xs).map (fun l => "" :: l)
  | x :: xs =>
    match toStr x, elemStrs xs with
    | some s, some l => some (s :: l)
    | _, _ => none
end

/-! ## Properties of arrays and primitive values -/

/-- The names of the functions of `Array.prototype`, `constructor` apart. -/
def arrayPrototypeKeys : List String :=
  ["concat", "copyWithin", "fill", "find", "findIndex", "lastIndexOf", "pop", "push",
   "reverse", "shift", "unshift", "slice", "sort", "splice", "includes", "indexOf", "join",
   "keys", "entries", "values", "forEach", "filter", "flat", "flatMap", "map", "every",
   "some", "reduce", "reduceRight", "toLocaleString", "toString"]

/-- The names of the functions of `String.prototype`, `constructor` apart. -/
def stringPrototypeKeys : List String :=
  ["anchor", "big", "blink", "bold", "charAt", "charCodeAt", "codePointAt", "concat",
   "endsWith", "fontcolor", "fontsize", "fixed", "includes", "indexOf", "italics",
   "lastIndexOf", "link", "localeCompare", "match", "matchAll", "normalize", "padEnd",
   "padStart", "repeat", "replace", "search", "slice", "small", "split", "strike", "sub",
   "substr", "substring", "sup", "startsWith", "toString", "trim", "trimStart", "trimLeft",
   "trimEnd", "trimRight", "toLocaleLowerCase", "toLocaleUpperCase", "toLowerCase",
   "toUpperCase", "valueOf"]

/-- The names of the functions of `Number.prototype`, `constructor` apart. -/
def numberPrototypeKeys : List String :=
  ["toExponential", "toFixed", "toPrecision", "toString", "valueOf", "toLocaleString"]

/-- The names of the functions of `Boolean.prototype`, `constructor` apart. -/
def booleanPrototypeKeys : List String := ["toString", "valueOf"]

/-- The name a built-in function shows: `trimLeft` and `trimRight` are the
functions `trimStart` and `trimEnd`. -/
def functionName (key : String) : String :=
  if key = "trimLeft" then "trimStart"
  else if key = "trimRight" then "trimEnd"
  else key

/-- The property `key` a value inherits from the prototype of its kind, and
through it from `Object.prototype`: `ctor` is the name of the constructor,
`shown` the string form of the prototype itself, `members` its functions. -/
def inherited (ctor shown : String) (members : List String) (key : String) : Looked :=
  if key = "__proto__" then .builtin shown
  else if key = "constructor" then
    .builtin ("function " ++ ctor ++ "() \x7b [native code] \x7d")
  else if key ∈ members then
    .builtin ("function " ++ functionName key ++ "() \x7b [native code] \x7d")
  else if key ∈ objectPrototypeKeys then .builtin (builtinDisplay key)
  else .value .undefined

/-- Number of UTF-16 code units of a character. -/
def unitsOf (c : Char) : Nat := if c.toNat < 65536 then 1 else 2

/-- The `length` of a string: its number of UTF-16 code units. -/
def utf16Length : List Char → Nat
  | [] => 0
  | c :: cs => unitsOf c + utf16Length cs

/-- The code unit at index `i` of a string, as the text it is once written: the
character itself, or U+FFFD for one half of a pair of surrogates. -/
def unitAt : List Char → Nat → Option Char
  | [], _ => none
  | c :: cs, i =>
    if i < unitsOf c then (if unitsOf c = 1 then some c else some (Char.ofNat 65533))
    else unitAt cs (i - unitsOf c)

/-- The element at index `i` of an array. -/
def elemAt : List JSVal → Nat → Option JSVal
  | [], _ => none
  | x :: _, 0 => some x
  | _ :: xs, i + 1 => elemAt xs i

/-- The expression `parsed[key]`; `none` is the TypeError of reading a property
of `null` or `undefined`. -/
def readProp (parsed : JSVal) (key : String) : Option Looked :=
  match parsed with
  | .undefined => none
  | .null => none
  | .obj props => some (getProp props key)
  | .arr xs =>
    if key = "length" then some (.value (.num (numberOfNat xs.length)))
    else
      match (arrayIndex key).bind (elemAt xs) with
      | some x => some (.value x)
      | none => some (inherited "Array" "" arrayPrototypeKeys key)
  | .str s =>
    if key = "length" then some (.value (.num (numberOfNat (utf16Length s.data))))
    else
      match (arrayIndex key).bind (unitAt s.data) with
      | some c => some (.value (.str (String.mk [c])))
      | none => some (inherited "String" "" stringPrototypeKeys key)
  | .num _ => some (inherited "Number" "0" numberPrototypeKeys key)
  | .bool _ => some (inherited "Boolean" "false" booleanPrototypeKeys key)

/-- White space that ToNumber strips around a numeric string. -/
def isStrWhiteSpace (c : Char) : Bool :=
  c.toNat ∈ [9, 10, 11, 12, 13, 32, 160, 5760, 8192, 8193, 8194, 8195, 8196, 8197, 8198,
    8199, 8200, 8201, 8202, 8232, 8233, 8239, 8287, 12288, 65279]

/-- Drop leading white space of ToNumber. -/
def dropStrWs : List Char → List Char
  | [] => []
  | c :: cs => if isStrWhiteSpace c then dropStrWs cs else c :: cs

/-- Value of a digit of the given radix. -/
def radixDigit (radix : Nat) (c : Char) : Option Nat :=
  let v : Nat :=
    if 48 ≤ c.toNat ∧ c.toNat ≤ 57 then c.toNat - 48
    else if 97 ≤ c.toNat ∧ c.toNat ≤ 102 then c.toNat - 87
    else if 65 ≤ c.toNat ∧ c.toNat ≤ 70 then c.toNat - 55
    else 16
  if v < radix then some v else none

/-- Value of a non-empty string of digits of the given radix. -/
def radixValue (radix : Nat) : List Char → Nat → Option Nat
  | [], _ => none
  | [c], acc => (radixDigit radix c).map (fun v => acc * radix + v)
  | c :: d :: cs, acc =>
    match radixDigit radix c with
    | some v => radixValue radix (d :: cs) (acc * radix + v)
    | none => none

/-- The exponent part of a decimal literal that ends the text: its value. -/
def exponentPart : List Char → Option Int
  | [] => some 0
  | c :: cs =>
    if c = 'e' ∨ c = 'E' then
      match cs with
      | [] => none
      | s :: ds =>
        if s = '-' then
          (if ds.isEmpty || !ds.all isDigit then none else some (- (digitsValue ds 0 : Int)))
        else if s = '+' then
          (if ds.isEmpty || !ds.all isDigit then none else some (digitsValue ds 0 : Int))
        else
          (if !(s :: ds).all isDigit then none else some (digitsValue (s :: ds) 0 : Int))
    else none

/-- StrUnsignedDecimalLiteral other than `Infinity`, filling the text: digits
with an optional fraction and exponent, at least one digit before the
exponent. -/
def unsignedDecimal (negative : Bool) (cs : List Char) : Option JSNum :=
  let ip := spanDigits cs
  let fp : List Char × List Char :=
    match ip.2 with
    | [] => ([], [])
    | c :: rest => if c = '.' then spanDigits rest else ([], c :: rest)
  if ip.1.isEmpty && fp.1.isEmpty then none
  else
    (exponentPart fp.2).map
      (fun x => numberOfDecimal negative (digitsValue (ip.1 ++ fp.1) 0) (x - (fp.1.length : Int)))

/-- The abstract operation StringToNumber; `none` is NaN. -/
def stringToNumber (s : String) : Option JSNum :=
  let body := (dropStrWs (dropStrWs s.data).reverse).reverse
  match body with
  | [] => some (.finite false 0 0)
  | c :: cs =>
    if body = ['I', 'n', 'f', 'i', 'n', 'i', 't', 'y']
        ∨ body = ['+', 'I', 'n', 'f', 'i', 'n', 'i', 't', 'y'] then some (.infinite false)
    else if body = ['-', 'I', 'n', 'f', 'i', 'n', 'i', 't', 'y'] then some (.infinite true)
    else if c = '0' ∧ (cs.head? = some 'x' ∨ cs.head? = some 'X') then
      (radixValue 16 cs.tail 0).map numberOfNat
    else if c = '0' ∧ (cs.head? = some 'o' ∨ cs.head? = some 'O') then
      (radixValue 8 cs.tail 0).map numberOfNat
    else if c = '0' ∧ (cs.head? = some 'b' ∨ cs.head? = some 'B') then
      (radixValue 2 cs.tail 0).map numberOfNat
    else if c = '-' then unsignedDecimal true cs
    else if c = '+' then unsignedDecimal false cs
    else unsignedDecimal false (c :: cs)

/-- The abstract operation ToNumber; `none` is NaN or a thrown TypeError, which
end the assignment of a `length` alike. -/
def toNumber : JSVal → Option JSNum
  | .undefined => none
  | .null => some (.finite false 0 0)
  | .bool b => some (numberOfNat (if b then 1 else 0))
  | .num x => some x
  | .str s => stringToNumber s
  | .arr xs => (toStr (.arr xs)).bind stringToNumber
  | .obj _ => none

/-- The length an assignment to `length` sets: ToNumber of the value, when it is
a whole number up to `2 ^ 32 - 1`; `none` is the thrown RangeError or
TypeError. -/
def toArrayLength (value : JSVal) : Option Nat :=
  ((toNumber value).bind JSNum.toNat?).bind (fun n => if n ≤ 4294967295 then some n else none)

/-- An array with the element at index `i` set, holes filling the gap. -/
def setElem : List JSVal → Nat → JSVal → List JSVal
  | [], 0, v => [v]
  | [], i + 1, v => .undefined :: setElem [] i v
  | _ :: xs, 0, v => v :: xs
  | x :: xs, i + 1, v => x :: setElem xs i v

/-- An array cut or extended with holes to the length `n`. -/
def resize : List JSVal → Nat → List JSVal
  | _, 0 => []
  | [], n + 1 => .undefined :: resize [] n
  | x :: xs, n + 1 => x :: resize xs n

/-- The assignment `parsed[key] = value` in sloppy mode, giving the value
`parsed` is afterwards; `none` is a thrown error. On a primitive value the
assignment is dropped; on an array it sets an element or the length, and any
other name leaves the elements as they are. -/
def assignProp (parsed : JSVal) (key : String) (value : JSVal) : Option JSVal :=
  match parsed with
  | .undefined => none
  | .null => none
  | .obj props => some (.obj (assign props key value))
  | .arr xs =>
    match arrayIndex key with
    | some i => some (.arr (setElem xs i value))
    | none =>
      if key = "length" then (toArrayLength value).map (fun n => .arr (resize xs n))
      else some (.arr xs)
  | other => some other

/-- The statement `delete parsed[key]` in sloppy mode, giving the value `parsed`
is afterwards: an own property of an object goes, an element of an array
becomes a hole, nothing else changes. -/
def deleteOf (parsed : JSVal) (key : String) : JSVal :=
  match parsed with
  | .obj props => .obj (deleteProp props key)
  | .arr xs =>
    match arrayIndex key with
    | some i => if i < xs.length then .arr (setElem xs i .undefined) else .arr xs
    | none => .arr xs
  | other => other

/-! ## JSON.stringify -/

/-- A hexadecimal digit, lower case. -/
def hexDigit (d : Nat) : Char := if d < 10 then Char.ofNat (48 + d) else Char.ofNat (87 + d)

/-- QuoteJSONString on one character. -/
def escapeChar (c : Char) : List Char :=
  if c = '"' then ['\\', '"']
  else if c = '\\' then ['\\', '\\']
  else if c = Char.ofNat 8 then ['\\', 'b']
  else if c = Char.ofNat 12 then ['\\', 'f']
  else if c = '\n' then ['\\', 'n']
  else if c = '\r' then ['\\', 'r']
  else if c = '\t' then ['\\', 't']
  else if c.toNat < 32 then ['\\', 'u', '0', '0', hexDigit (c.toNat / 16), hexDigit (c.toNat % 16)]
  else [c]

/-- The escaped body of a string literal. -/
def escape : List Char → List Char
  | [] => []
  | c :: cs => escapeChar c ++ escape cs

/-- QuoteJSONString. -/
def quote (s : String) : List Char := '"' :: (escape s.data ++ ['"'])

/-- Join the serialized parts with commas. -/
def joinParts : List (List Char) → List Char
  | [] => []
  | [p] => p
  | p :: q :: rest => p ++ ',' :: joinParts (q :: rest)

/-- The text of a Number: `null` for an infinity. -/
def serNum : JSNum → List Char
  | .infinite _ => ['n', 'u', 'l', 'l']
  | .finite negative m e => formatNum (.finite negative m e)

mutual
/-- SerializeJSONProperty without indentation; `none` is `undefined`. -/
def ser : JSVal → Option (List Char)
  | .undefined => none
  | .null => some ['n', 'u', 'l', 'l']
  | .bool true => some ['t', 'r', 'u', 'e']
  | .bool false => some ['f', 'a', 'l', 's', 'e']
  | .num x => some (serNum x)
  | .str s => some (quote s)
  | .arr xs => some ('[' :: (joinParts (serElems xs) ++ [']']))
  | .obj props => some ('\x7b' :: (joinParts (serProps props) ++ ['\x7d']))
/-- The elements of an array; `undefined` is written `null`. -/
def serElems : List JSVal → List (List Char)
  | [] => []
  | x :: xs =>
    match ser x with
    | some t => t :: serElems xs
    | none => ['n', 'u', 'l', 'l'] :: serElems xs
/-- The members of an object; a property whose value is `undefined` is left out. -/
def serProps : List (String × JSVal) → List (List Char)
  | [] => []
  | (k, v) :: ps =>
    match ser v with
    | some t => (quote k ++ ':' :: t) :: serProps ps
    | none => serProps ps
end

/-- The call `JSON.stringify(value)`; `none` is the result `undefined`. -/
def JSON.stringify (v : JSVal) : Option String := (ser v).map String.mk

/-! ## JSON.parse -/

/-- Outcome of parsing: a result, or a thrown SyntaxError. -/
inductive PResult (α : Type) where
  | ok (a : α)
  | syntaxError

/-- Apply a function to a parsed result. -/
def PResult.map {α β : Type} (f : α → β) : PResult α → PResult β
  | .ok a => .ok (f a)
  | .syntaxError => .syntaxError

/-- JSON white space. -/
def isWs (c : Char) : Bool := c = ' ' || c = '\t' || c = '\n' || c = '\r'

/-- Drop leading white space. -/
def skipWs : List Char → List Char
  | [] => []
  | c :: cs => if isWs c then skipWs cs else c :: cs

/-- Value of a hexadecimal digit. -/
def hexVal (c : Char) : Option Nat :=
  if 48 ≤ c.toNat ∧ c.toNat ≤ 57 then some (c.toNat - 48)
  else if 97 ≤ c.toNat ∧ c.toNat ≤ 102 then some (c.toNat - 87)
  else if 65 ≤ c.toNat ∧ c.toNat ≤ 70 then some (c.toNat - 55)
  else none

/-- Value of four hexadecimal digits. -/
def hex4 (a b c d : Char) : Option Nat :=
  match hexVal a, hexVal b, hexVal c, hexVal d with
  | some w, some x, some y, some z => some (((w * 16 + x) * 16 + y) * 16 + z)
  | _, _, _, _ => none

/-- The character a one-letter escape stands for. -/
def unescape (c : Char) : Option Char :=
  if c = '"' then some '"'
  else if c = '\\' then some '\\'
  else if c = '/' then some '/'
  else if c = 'b' then some (Char.ofNat 8)
  else if c = 'f' then some (Char.ofNat 12)
  else if c = 'n' then some '\n'
  else if c = 'r' then some '\r'
  else if c = 't' then some '\t'
  else none

/-- Put a character in front of a parsed string body. -/
def prepend (c : Char) (r : List Char × List Char) : List Char × List Char := (c :: r.1, r.2)

/-- The low surrogate escaped at the head of the text, if there is one: its
value and the text after it. -/
def lowSurrogate : List Char → Option (Nat × List Char)
  | b :: u :: w :: x :: y :: z :: rest =>
    if b = '\\' ∧ u = 'u' then
      match hex4 w x y z with
      | some n => if 0xDC00 ≤ n ∧ n ≤ 0xDFFF then some (n, rest) else none
      | none => none
    else none
  | _ => none

/-- The character of the escape `\uXXXX` of value `n`, with the text left after
it: a high surrogate takes the low surrogate escaped next to it; an unpaired
surrogate is U+FFFD. -/
def escapedChar (n : Nat) (rest : List Char) : Char × List Char :=
  if 0xD800 ≤ n ∧ n ≤ 0xDBFF then
    match lowSurrogate rest with
    | some (low, rest1) => (Char.ofNat (65536 + (n - 0xD800) * 1024 + (low - 0xDC00)), rest1)
    | none => (Char.ofNat 65533, rest)
  else if 0xDC00 ≤ n ∧ n ≤ 0xDFFF then (Char.ofNat 65533, rest)
  else (Char.ofNat n, rest)

/-- The body of a string literal after its opening quote, up to and including
the closing quote, by recursion on fuel; returns the characters of the string
and the rest of the text. -/
def parseStrBodyF : Nat → List Char → PResult (List Char × List Char)
  | 0, _ => .syntaxError
  | _ + 1, [] => .syntaxError
  | fuel + 1, c :: rest =>
    if c = '"' then .ok ([], rest)
    else if c = '\\' then
      match rest with
      | [] => .syntaxError
      | e :: rest1 =>
        if e = 'u' then
          match rest1 with
          | a :: b :: c2 :: d :: rest2 =>
            match hex4 a b c2 d with
            | none => .syntaxError
            | some n =>
              (parseStrBodyF fuel (escapedChar n rest2).2).map
                (prepend (escapedChar n rest2).1)
          | _ => .syntaxError
        else
          match unescape e with
          | none => .syntaxError
          | some ch => (parseStrBodyF fuel rest1).map (prepend ch)
    else if c.toNat < 32 then .syntaxError
    else (parseStrBodyF fuel rest).map (prepend c)

/-- The body of a string literal after its opening quote. -/
def parseStrBody (cs : List Char) : PResult (List Char × List Char) :=
  parseStrBodyF (cs.length + 1) cs

/-- The exponent of a number literal, if the text goes on with one: the digits
read so far are `digits`, `fracLen` of them after the point. -/
def parseExponent (negative : Bool) (digits : List Char) (fracLen : Nat) :
    List Char → PResult (JSVal × List Char)
  | [] => .ok (.num (numberOfDecimal negative (digitsValue digits 0) (- (fracLen : Int))), [])
  | c :: rest =>
    if c = 'e' ∨ c = 'E' then
      let signed : Bool × List Char :=
        match rest with
        | [] => (false, [])
        | s :: rest1 =>
          if s = '-' then (true, rest1) else if s = '+' then (false, rest1) else (false, s :: rest1)
      if (spanDigits signed.2).1.isEmpty then .syntaxError
      else
        .ok (.num (numberOfDecimal negative (digitsValue digits 0)
          ((if signed.1 then - (digitsValue (spanDigits signed.2).1 0 : Int)
            else (digitsValue (spanDigits signed.2).1 0 : Int)) - (fracLen : Int))),
          (spanDigits signed.2).2)
    else
      .ok (.num (numberOfDecimal negative (digitsValue digits 0) (- (fracLen : Int))), c :: rest)

/-- The fraction of a number literal, if the text goes on with one. -/
def parseFraction (negative : Bool) (intDigits : List Char) :
    List Char → PResult (JSVal × List Char)
  | [] => parseExponent negative intDigits 0 []
  | c :: rest =>
    if c = '.' then
      if (spanDigits rest).1.isEmpty then .syntaxError
      else
        parseExponent negative (intDigits ++ (spanDigits rest).1) (spanDigits rest).1.length
          (spanDigits rest).2
    else parseExponent negative intDigits 0 (c :: rest)

/-- A number after its optional minus sign: `0` or digits without leading
zero, then an optional fraction and an optional exponent. -/
def parseNumber (negative : Bool) : List Char → PResult (JSVal × List Char)
  | [] => .syntaxError
  | c :: rest =>
    if !isDigit c then .syntaxError
    else if c = '0' then parseFraction negative [c] rest
    else parseFraction negative (c :: (spanDigits rest).1) (spanDigits rest).2

/-- Match a literal word at the head of the text. -/
def dropLit : List Char → List Char → Option (List Char)
  | [], cs => some cs
  | _ :: _, [] => none
  | l :: ls, c :: cs => if l = c then dropLit ls cs else none

/-- The object built from the members of an object literal, in text order. -/
def buildObject (ms : List (String × JSVal)) : List (String × JSVal) :=
  ms.foldl (fun o m => defineProp o m.1 m.2) []

mutual
/-- A JSON value at the head of the text, with the rest of the text. -/
def parseValue : Nat → List Char → PResult (JSVal × List Char)
  | 0, _ => .syntaxError
  | fuel + 1, cs =>
    match skipWs cs with
    | [] => .syntaxError
    | c :: rest =>
      if c = '\x7b' then
        match skipWs rest with
        | [] => .syntaxError
        | d :: rest1 =>
          if d = '\x7d' then .ok (.obj [], rest1)
          else
            match parseMembers fuel (d :: rest1) with
            | .ok (ms, rest2) => .ok (.obj (buildObject ms), rest2)
            | .syntaxError => .syntaxError
      else if c = '[' then
        match skipWs rest with
        | [] => .syntaxError
        | d :: rest1 =>
          if d = ']' then .ok (.arr [], rest1)
          else
            match parseElems fuel (d :: rest1) with
            | .ok (xs, rest2) => .ok (.arr xs, rest2)
            | .syntaxError => .syntaxError
      else if c = '"' then
        (parseStrBody rest).map (fun r => (.str (String.mk r.1), r.2))
      else if c = 't' then
        match dropLit ['r', 'u', 'e'] rest with
        | some r => .ok (.bool true, r)
        | none => .syntaxError
      else if c = 'f' then
        match dropLit ['a', 'l', 's', 'e'] rest with
        | some r => .ok (.bool false, r)
        | none => .syntaxError
      else if c = 'n' then
        match dropLit ['u', 'l', 'l'] rest with
        | some r => .ok (.null, r)
        | none => .syntaxError
      else if c = '-' then parseNumber true rest
      else parseNumber false (c :: rest)
/-- The elements of an array after its opening bracket, up to and including the
closing bracket. -/
def parseElems : Nat → List Char → PResult (List JSVal × List Char)
  | 0, _ => .syntaxError
  | fuel + 1, cs =>
    match parseValue fuel cs with
    | .ok (v, rest) =>
      match skipWs rest with
      | [] => .syntaxError
      | d :: rest1 =>
        if d = ',' then
          match parseElems fuel rest1 with
          | .ok (vs, rest2) => .ok (v :: vs, rest2)
          | .syntaxError => .syntaxError
        else if d = ']' then .ok ([v], rest1)
        else .syntaxError
    | .syntaxError => .syntaxError
/-- The members of an object after its opening brace, up to and including the
closing brace, in text order. -/
def parseMembers : Nat → List Char → PResult (List (String × JSVal) × List Char)
  | 0, _ => .syntaxError
  | fuel + 1, cs =>
    match skipWs cs with
    | [] => .syntaxError
    | q :: rest =>
      if q = '"' then
        match parseStrBody rest with
        | .ok (k, rest1) =>
          match skipWs rest1 with
          | [] => .syntaxError
          | colon :: rest2 =>
            if colon = ':' then
              match parseValue fuel rest2 with
              | .ok (v, rest3) =>
                match skipWs rest3 with
                | [] => .syntaxError
                | d :: rest4 =>
                  if d = ',' then
                    match parseMembers fuel rest4 with
                    | .ok (ms, rest5) => .ok ((String.mk k, v) :: ms, rest5)
                    | .syntaxError => .syntaxError
                  else if d = '\x7d' then .ok ([(String.mk k, v)], rest4)
                  else .syntaxError
              | .syntaxError => .syntaxError
            else .syntaxError
        | .syntaxError => .syntaxError
      else .syntaxError
end

/-- The call `JSON.parse(text)`: one value, surrounded by white space only. The
fuel, one more than the length of the text, is never used up. -/
def JSON.parse (text : String) : PResult JSVal :=
  match parseValue (text.data.length + 1) text.data with
  | .ok (v, rest) => if (skipWs rest).isEmpty then .ok v else .syntaxError
  | .syntaxError => .syntaxError

/-! ## The copy `JSON.parse(JSON.stringify(value))` -/

mutual
/-- The value `JSON.parse` reads from the text `JSON.stringify` writes for a
value: an infinity and an `undefined` element become `null`, a property whose
value is `undefined` goes, an object is rebuilt from its members. -/
def reread : JSVal → JSVal
  | .undefined => .undefined
  | .null => .null
  | .bool b => .bool b
  | .num x =>
    match rereadNum x with
    | some y => .num y
    | none => .null
  | .str s => .str s
  | .arr xs => .arr (rereadElems xs)
  | .obj props => .obj (buildObject (rereadProps props))
/-- The elements read back. -/
def rereadElems : List JSVal → List JSVal
  | [] => []
  | .undefined :: xs => .null :: rereadElems xs
  | x :: xs => reread x :: rereadElems xs
/-- The members read back. -/
def rereadProps : List (String × JSVal) → List (String × JSVal)
  | [] => []
  | (_, .undefined) :: ps => rereadProps ps
  | (k, v) :: ps => (k, reread v) :: rereadProps ps
end

/-- No two properties of the list share a name. -/
def distinctKeys : List (String × JSVal) → Bool
  | [] => true
  | (k, _) :: ps => (getOwn ps k).isNone && distinctKeys ps

/-- The text after a number does not continue it. -/
def numEnd : List Char → Prop
  | [] => True
  | c :: _ => isDigit c = false ∧ c ≠ '.' ∧ c ≠ 'e' ∧ c ≠ 'E'

/-! ## The file system -/

/-- An entry of the file system: a regular file with its text, or a directory. -/
inductive Node where
  | file (content : String)
  | dir
  deriving DecidableEq

/-- The file system: what each path names, if anything. -/
abbrev FS := String → Option Node

/-- Reasons for which a call of `fs.promises` rejects. -/
inductive Errno where
  | ENOENT
  | EISDIR
  | ERR_INVALID_ARG_TYPE
  deriving DecidableEq

/-- The file system with `path` naming `node`. -/
def FS.put (fs : FS) (path : String) (node : Option Node) : FS :=
  fun p => if p = path then node else fs p

/-- The call `fs.readFile(path, 'utf8')`. -/
def readFile (fs : FS) (path : String) : Except Errno String :=
  match fs path with
  | none => .error .ENOENT
  | some .dir => .error .EISDIR
  | some (.file content) => .ok content

/-- The call `fs.writeFile(path, data)`: create or overwrite. -/
def writeFile (fs : FS) (path : String) (data : String) : Except Errno FS :=
  match fs path with
  | some .dir => .error .EISDIR
  | _ => .ok (fs.put path (some (.file data)))

/-- The call `fs.appendFile(path, data)`: create, or add at the end. -/
def appendFile (fs : FS) (path : String) (data : String) : Except Errno FS :=
  match fs path with
  | some .dir => .error .EISDIR
  | some (.file content) => .ok (fs.put path (some (.file (content ++ data))))
  | none => .ok (fs.put path (some (.file data)))

/-- The call `fs.unlink(path)`. -/
def unlink (fs : FS) (path : String) : Except Errno FS :=
  match fs path with
  | none => .error .ENOENT
  | some .dir => .error .EISDIR
  | some (.file _) => .ok (fs.put path none)

/-- The second argument of `fs.access`: an integer mode, or the function that
`createFile` passes there. -/
inductive ModeArg where
  | mode (m : Nat)
  | callback

/-- The version of the runtime: whether `fs.promises.access` validates its
mode argument (later versions) or coerces it with `mode | 0` (the versions of
2019, for which a function becomes `0`, the existence test `F_OK`). -/
structure Runtime where
  validatesMode : Bool

/-- The call `fs.access(path, mode)` of the promises API. It never calls its
second argument. -/
def access (rt : Runtime) (fs : FS) (path : String) (mode : ModeArg) : Except Errno Unit :=
  match mode, rt.validatesMode with
  | .callback, true => .error .ERR_INVALID_ARG_TYPE
  | _, _ =>
    match fs path with
    | none => .error .ENOENT
    | some _ => .ok ()

/-! ## The record store of `db.js` -/

/-- A settled promise: the file system left behind and, when the promise is
rejected, the reason. -/
structure Settled where
  fs : FS
  error : Option Errno

/-- The path of the log. -/
def logPath : String := "log.txt"

/-- The line `log` appends for a message at time `now`. -/
def logLine (value : String) (now : Nat) : String :=
  value ++ " " ++ String.mk (natDigits now) ++ "\n"

/-- The function `log`, on a message already converted to a string: the promise
of `fs.appendFile('log.txt', ...)`. -/
def log (value : String) (now : Nat) (fs : FS) : Settled :=
  match appendFile fs logPath (logLine value now) with
  | .ok fs1 => ⟨fs1, none⟩
  | .error e => ⟨fs, some e⟩

/-- The text of `JSON.stringify(value)` where a string is wanted: the result
`undefined` is coerced to the string `undefined`. -/
def stringifyText (v : JSVal) : String :=
  match JSON.stringify v with
  | some text => text
  | none => "undefined"

/-- The function `get`. Every `return log(...)` hands the promise of `log` to
the caller; a throw inside `try` (a failed read, a SyntaxError, a TypeError on
`null` or in the string conversion of the value) reaches `catch`. -/
def get (file key : String) (now : Nat) (fs : FS) : Settled :=
  match readFile fs file with
  | .error _ => log ("No such file or directory " ++ file) now fs
  | .ok data =>
    match JSON.parse data with
    | .syntaxError => log ("No such file or directory " ++ file) now fs
    | .ok parsed =>
      match readProp parsed key with
      | none => log ("No such file or directory " ++ file) now fs
      | some (.builtin display) => log display now fs
      | some (.value value) =>
        if !value.truthy then log ("ERROR: " ++ key ++ " Invalid key on " ++ file) now fs
        else
          match toStr value with
          | some text => log text now fs
          | none => log ("No such file or directory " ++ file) now fs

/-- The function `set`. -/
def set (file key : String) (value : JSVal) (now : Nat) (fs : FS) : Settled :=
  match readFile fs file with
  | .error _ => log ("No such file or directory " ++ file) now fs
  | .ok data =>
    match JSON.parse data with
    | .syntaxError => log ("No such file or directory " ++ file) now fs
    | .ok parsed =>
      match assignProp parsed key value with
      | none => log ("No such file or directory " ++ file) now fs
      | some updated =>
        match writeFile fs file (stringifyText updated) with
        | .error _ => log ("No such file or directory " ++ file) now fs
        | .ok fs1 =>
          match toStr value with
          | some text => log ("Key: " ++ key ++ ": " ++ text ++ " set in " ++ file) now fs1
          | none => log ("No such file or directory " ++ file) now fs1

/-- The function `remove`. -/
def remove (file key : String) (now : Nat) (fs : FS) : Settled :=
  match readFile fs file with
  | .error _ => log ("No such file or directory " ++ file) now fs
  | .ok data =>
    match JSON.parse data with
    | .syntaxError => log ("No such file or directory " ++ file) now fs
    | .ok parsed =>
      match JSON.parse (stringifyText parsed) with
      | .syntaxError => log ("No such file or directory " ++ file) now fs
      | .ok newObj =>
        match readProp newObj key with
        | none => log ("No such file or directory " ++ file) now fs
        | some keyToDelete =>
          if !keyToDelete.truthy then
            log ("ERROR: " ++ key ++ " Invalid key on " ++ file) now fs
          else
            match writeFile fs file (stringifyText (deleteOf newObj key)) with
            | .error _ => log ("No such file or directory " ++ file) now fs
            | .ok fs1 => log ("Key: " ++ key ++ " removed from " ++ file) now fs1

/-- The function `deleteFile`. -/
def deleteFile (file : String) (now : Nat) (fs : FS) : Settled :=
  match unlink fs file with
  | .ok fs1 => log ("Removed " ++ file) now fs1
  | .error _ => log ("No such file or directory " ++ file) now fs

/-- The function `createFile`: it awaits `fs.access(file, callback)` and, the
statements after it being commented out, does nothing more when that resolves;
when it rejects, `catch` logs. -/
def createFile (rt : Runtime) (file : String) (now : Nat) (fs : FS) : Settled :=
  match access rt fs file .callback with
  | .ok _ => ⟨fs, none⟩
  | .error _ => log (file ++ " already exists") now fs

/-! ## Vocabulary of the specification -/

/-- The text of the log: the content of `log.txt`, empty while it is absent. -/
def logText (fs : FS) : String :=
  match fs logPath with
  | some (.file content) => content
  | _ => ""

/-- The file system in which the log has gained the entry of `message` at time
`now` and nothing else has changed. -/
def withEntry (fs : FS) (message : String) (now : Nat) : FS :=
  fs.put logPath (some (.file (logText fs ++ logLine message now)))

/-- What an operation on `file` may have done to the file system `fs` before it
logs: nothing, or, `file` being a regular file, deleted it or overwritten it. -/
def writeStep (fs : FS) (file : String) (fs1 : FS) : Prop :=
  fs1 = fs ∨ ∃ text, fs file = some (.file text) ∧
    (fs1 = FS.put fs file none ∨ ∃ written, fs1 = FS.put fs file (some (.file written)))

/-- The file system with no file at all. -/
def emptyFS : FS := fun _ => none

/-- The file system of the concrete scenarios: `user.json` holds one e-mail
address, and there is no log yet. -/
def userFS : FS :=
  FS.put (fun _ => none) "user.json"
    (some (.file "\x7b\"email\":\"sroberts@talentpath.com\"\x7d"))

/-- A file system in which the name of the log is taken by a directory, so that
every append to the log fails. -/
def blockedLogFS : FS := FS.put userFS logPath (some .dir)

/-- As `userFS`, with the document written with spaces. -/
def spacedFS : FS :=
  FS.put emptyFS "user.json" (some (.file "\x7b \"email\": \"sroberts@talentpath.com\" \x7d"))

/-- A document with a key mapped to `0`. -/
def flagsFS : FS :=
  FS.put emptyFS "flags.json" (some (.file "\x7b\"visits\":0,\"name\":\"scott\"\x7d"))

/-- As `userFS`, with one entry already in the log. -/
def loggedFS : FS :=
  FS.put userFS logPath (some (.file "sroberts@talentpath.com 1563221866619\n"))

/-- As `userFS`, with a file whose text is not JSON. -/
def brokenFS : FS := FS.put userFS "broken.json" (some (.file "\x7b\"email\":"))

/-- A file system whose file `log.txt` holds a JSON document. -/
def logDocumentFS : FS := FS.put emptyFS logPath (some (.file "\x7b\"email\":\"a@b.c\"\x7d"))

/-- A document with a decimal number, a key that is an array index, and a value
that is an object with an own property `toString`. -/
def teaFS : FS :=
  FS.put emptyFS "tea.json" (some (.file
    "\x7b\"price\":9.99,\"name\":\"tea\",\"1\":[1,2],\"odd\":\x7b\"toString\":\"x\"\x7d\x7d"))

/-- A number literal of the JSON grammar: one integer digit at least, no leading
zero, digits only, an exponent with one digit at least. -/
def Lexeme.wellFormed (x : Lexeme) : Prop :=
  (∃ c cs, x.intDigits = c :: cs ∧ (c = '0' → cs = [])) ∧
  (∀ c ∈ x.intDigits, isDigit c = true) ∧
  (∀ c ∈ x.fracDigits, isDigit c = true) ∧
  (∀ s ds, x.exponent = some (s, ds) → ds ≠ [] ∧ ∀ c ∈ ds, isDigit c = true)

/-! ## The logger -/

theorem log_appends (value : String) (now : Nat) (fs : FS) (hlog : fs logPath ≠ some .dir) :
    log value now fs = ⟨withEntry fs value now, none⟩ := by
  unfold log appendFile withEntry logText
  cases h : fs logPath with
  | none => simp
  | some node =>
    cases node with
    | file content => simp
    | dir => exact absurd h hlog

theorem log_blocked (value : String) (now : Nat) (fs : FS) (hlog : fs logPath = some .dir) :
    log value now fs = ⟨fs, some .EISDIR⟩ := by
  simp [log, appendFile, hlog]

theorem withEntry_other (fs : FS) (message : String) (now : Nat) (p : String)
    (hp : p ≠ logPath) : withEntry fs message now p = fs p := by
  simp [withEntry, FS.put, hp]

theorem withEntry_log (fs : FS) (message : String) (now : Nat) :
    withEntry fs message now logPath = some (.file (logText fs ++ logLine message now)) := by
  simp [withEntry, FS.put]

theorem put_other (fs : FS) (path p : String) (node : Option Node) (h : p ≠ path) :
    FS.put fs path node p = fs p := by
  simp [FS.put, h]

theorem put_same (fs : FS) (path : String) (node : Option Node) :
    FS.put fs path node path = node := by
  simp [FS.put]

/-! ## Every operation ends in one call of `log` -/

theorem get_shape (file key : String) (now : Nat) (fs : FS) :
    ∃ m, get file key now fs = log m now fs := by
  unfold get
  cases readFile fs file with
  | error e => exact ⟨_, rfl⟩
  | ok data =>
    simp only
    cases JSON.parse data with
    | syntaxError => exact ⟨_, rfl⟩
    | ok parsed =>
      simp only
      cases readProp parsed key with
      | none => exact ⟨_, rfl⟩
      | some looked =>
        cases looked with
        | builtin display => exact ⟨_, rfl⟩
        | value value =>
          simp only
          split
          · exact ⟨_, rfl⟩
          · cases toStr value with
            | none => exact ⟨_, rfl⟩
            | some shown => exact ⟨_, rfl⟩

theorem readFile_ok (fs : FS) (file data : String) (h : readFile fs file = .ok data) :
    fs file = some (.file data) := by
  unfold readFile at h
  cases hf : fs file with
  | none => rw [hf] at h; cases h
  | some node =>
    rw [hf] at h
    cases node with
    | dir => cases h
    | file content => simp at h; rw [h]

theorem writeFile_ok (fs : FS) (file data written : String)
    (h : fs file = some (.file data)) :
    writeFile fs file written = .ok (FS.put fs file (some (.file written))) := by
  simp [writeFile, h]

theorem set_shape (file key : String) (value : JSVal) (now : Nat) (fs : FS) :
    ∃ m fs1, set file key value now fs = log m now fs1 ∧ writeStep fs file fs1 := by
  unfold set
  cases hr : readFile fs file with
  | error e => exact ⟨_, fs, rfl, Or.inl rfl⟩
  | ok data =>
    have hf := readFile_ok fs file data hr
    simp only
    cases JSON.parse data with
    | syntaxError => exact ⟨_, fs, rfl, Or.inl rfl⟩
    | ok parsed =>
      simp only
      cases assignProp parsed key value with
      | none => exact ⟨_, fs, rfl, Or.inl rfl⟩
      | some updated =>
        simp only [writeFile_ok fs file data _ hf]
        cases toStr value with
        | none => exact ⟨_, _, rfl, Or.inr ⟨data, hf, Or.inr ⟨_, rfl⟩⟩⟩
        | some shown => exact ⟨_, _, rfl, Or.inr ⟨data, hf, Or.inr ⟨_, rfl⟩⟩⟩

theorem remove_shape (file key : String) (now : Nat) (fs : FS) :
    ∃ m fs1, remove file key now fs = log m now fs1 ∧ writeStep fs file fs1 := by
  unfold remove
  cases hr : readFile fs file with
  | error e => exact ⟨_, fs, rfl, Or.inl rfl⟩
  | ok data =>
    have hf := readFile_ok fs file data hr
    simp only
    cases JSON.parse data with
    | syntaxError => exact ⟨_, fs, rfl, Or.inl rfl⟩
    | ok parsed =>
      simp only
      cases JSON.parse (stringifyText parsed) with
      | syntaxError => exact ⟨_, fs, rfl, Or.inl rfl⟩
      | ok newObj =>
        simp only
        cases readProp newObj key with
        | none => exact ⟨_, fs, rfl, Or.inl rfl⟩
        | some keyToDelete =>
          simp only [writeFile_ok fs file data _ hf]
          split
          · exact ⟨_, fs, rfl, Or.inl rfl⟩
          · exact ⟨_, _, rfl, Or.inr ⟨data, hf, Or.inr ⟨_, rfl⟩⟩⟩

theorem deleteFile_shape (file : String) (now : Nat) (fs : FS) :
    ∃ m fs1, deleteFile file now fs = log m now fs1 ∧ writeStep fs file fs1 := by
  unfold deleteFile unlink
  cases hf : fs file with
  | none => exact ⟨_, fs, rfl, Or.inl rfl⟩
  | some node =>
    cases node with
    | dir => exact ⟨_, fs, rfl, Or.inl rfl⟩
    | file text => exact ⟨_, _, rfl, Or.inr ⟨text, hf, Or.inl rfl⟩⟩

theorem writeStep_log (fs fs1 : FS) (file : String) (h : writeStep fs file fs1)
    (hne : file ≠ logPath) : fs1 logPath = fs logPath := by
  rcases h with h | ⟨text, _, h | ⟨written, h⟩⟩
  · rw [h]
  · rw [h, put_other _ _ _ _ (Ne.symm hne)]
  · rw [h, put_other _ _ _ _ (Ne.symm hne)]

theorem writeStep_blocked (fs fs1 : FS) (file : String) (h : writeStep fs file fs1) :
    fs1 logPath = some .dir ↔ fs logPath = some .dir := by
  rcases h with h | ⟨text, hf, h | ⟨written, h⟩⟩
  · rw [h]
  · by_cases hne : file = logPath
    · subst hne; rw [h, put_same, hf]; simp
    · rw [h, put_other _ _ _ _ (Ne.symm hne)]
  · by_cases hne : file = logPath
    · subst hne; rw [h, put_same, hf]; simp
    · rw [h, put_other _ _ _ _ (Ne.symm hne)]

theorem log_entry (m : String) (now : Nat) (fs fs1 : FS) (h : fs1 logPath = fs logPath)
    (hlog : fs logPath ≠ some .dir) :
    (log m now fs1).error = none ∧
    (log m now fs1).fs logPath = some (.file (logText fs ++ logLine m now)) := by
  rw [log_appends m now fs1 (by rw [h]; exact hlog)]
  refine ⟨rfl, ?_⟩
  simp [withEntry_log, logText, h]

theorem log_error (m : String) (now : Nat) (fs fs1 : FS)
    (h : fs1 logPath = some .dir ↔ fs logPath = some .dir) :
    ((log m now fs1).error = none ↔ fs logPath ≠ some .dir) ∧
    (fs logPath = some .dir → (log m now fs1).error = some .EISDIR) := by
  by_cases hb : fs logPath = some .dir
  · rw [log_blocked m now fs1 (h.2 hb)]
    simp [hb]
  · rw [log_appends m now fs1 (fun e => hb (h.1 e))]
    simp [hb]

/-! ## A file that is missing or is not JSON -/

theorem get_missing (file key : String) (now : Nat) (fs : FS)
    (h : fs file = none ∨ ∃ text, fs file = some (.file text) ∧ JSON.parse text = .syntaxError) :
    get file key now fs = log ("No such file or directory " ++ file) now fs := by
  rcases h with h | ⟨text, h, hp⟩
  · simp [get, readFile, h]
  · simp [get, readFile, h, hp]

theorem set_missing (file key : String) (value : JSVal) (now : Nat) (fs : FS)
    (h : fs file = none ∨ ∃ text, fs file = some (.file text) ∧ JSON.parse text = .syntaxError) :
    set file key value now fs = log ("No such file or directory " ++ file) now fs := by
  rcases h with h | ⟨text, h, hp⟩
  · simp [set, readFile, h]
  · simp [set, readFile, h, hp]

theorem remove_missing (file key : String) (now : Nat) (fs : FS)
    (h : fs file = none ∨ ∃ text, fs file = some (.file text) ∧ JSON.parse text = .syntaxError) :
    remove file key now fs = log ("No such file or directory " ++ file) now fs := by
  rcases h with h | ⟨text, h, hp⟩
  · simp [remove, readFile, h]
  · simp [remove, readFile, h, hp]

/-! ## Decimal digits -/

theorem digitChar_toNat (d : Nat) (h : d < 10) : (digitChar d).toNat = 48 + d := by
  unfold digitChar
  interval_cases d <;> rfl

theorem isDigit_digitChar (d : Nat) (h : d < 10) : isDigit (digitChar d) = true := by
  simp [isDigit, digitChar_toNat d h]
  omega

theorem digitsValue_append (a b : List Char) (acc : Nat) :
    digitsValue (a ++ b) acc = digitsValue b (digitsValue a acc) := by
  induction a generalizing acc with
  | nil => rfl
  | cons c cs ih => simp [digitsValue, ih]

theorem natDigitsF_digits (fuel n : Nat) :
    ∀ c ∈ natDigitsF fuel n, isDigit c = true := by
  induction fuel generalizing n with
  | zero => simp [natDigitsF]
  | succ f ih =>
    unfold natDigitsF
    split
    · rename_i h10
      intro c hc
      simp at hc
      subst hc
      exact isDigit_digitChar n h10
    · intro c hc
      rcases List.mem_append.1 hc with hc | hc
      · exact ih _ c hc
      · simp at hc
        subst hc
        exact isDigit_digitChar _ (Nat.mod_lt _ (by decide))

theorem natDigitsF_head (fuel n : Nat) (h : n < fuel) :
    ∃ c ds, natDigitsF fuel n = c :: ds ∧ (c = '0' → n = 0 ∧ ds = []) := by
  induction fuel generalizing n with
  | zero => omega
  | succ f ih =>
    unfold natDigitsF
    split
    · rename_i h10
      refine ⟨digitChar n, [], rfl, ?_⟩
      intro hc
      have := congrArg Char.toNat hc
      rw [digitChar_toNat n h10] at this
      have h0 : ('0' : Char).toNat = 48 := rfl
      rw [h0] at this
      exact ⟨by omega, rfl⟩
    · rename_i h10
      obtain ⟨c, ds, hcd, hzero⟩ := ih (n / 10) (by omega)
      refine ⟨c, ds ++ [digitChar (n % 10)], by rw [hcd]; rfl, ?_⟩
      intro hc
      have := (hzero hc).1
      omega

theorem natDigits_digits (n : Nat) : ∀ c ∈ natDigits n, isDigit c = true :=
  natDigitsF_digits (n + 1) n

theorem natDigits_head (n : Nat) :
    ∃ c ds, natDigits n = c :: ds ∧ (c = '0' → n = 0 ∧ ds = []) :=
  natDigitsF_head (n + 1) n (by omega)

theorem spanDigits_append (ds tail : List Char) (hds : ∀ c ∈ ds, isDigit c = true)
    (htail : ∀ c r, tail = c :: r → isDigit c = false) :
    spanDigits (ds ++ tail) = (ds, tail) := by
  induction ds with
  | nil =>
    cases tail with
    | nil => rfl
    | cons c cs => simp [spanDigits, htail c cs rfl]
  | cons d ds ih =>
    have hd := hds d (List.mem_cons_self _ _)
    have := ih (fun c hc => hds c (List.mem_cons_of_mem _ hc))
    simp [spanDigits, hd, this]

theorem numEnd_head (rest : List Char) (h : numEnd rest) :
    ∀ c r, rest = c :: r → isDigit c = false := by
  intro c r hc
  subst hc
  exact h.1

/-! ## Number literals are read back -/

theorem parseExponent_tail (negative : Bool) (digits : List Char) (fracLen : Nat)
    (exponent : Option (Bool × List Char)) (rest : List Char)
    (hexp : ∀ s ds, exponent = some (s, ds) → ds ≠ [] ∧ ∀ c ∈ ds, isDigit c = true)
    (hrest : numEnd rest) :
    parseExponent negative digits fracLen (exponentText exponent ++ rest)
    = .ok (.num (numberOfDecimal negative (digitsValue digits 0)
        (exponentValue exponent - (fracLen : Int))), rest) := by
  cases exponent with
  | none =>
    cases rest with
    | nil => simp [parseExponent, exponentText, exponentValue]
    | cons c r =>
      simp [parseExponent, exponentText, exponentValue, hrest.2.2.1, hrest.2.2.2]
  | some sd =>
    obtain ⟨s, ds⟩ := sd
    obtain ⟨hne, hds⟩ := hexp s ds rfl
    have hspan := spanDigits_append ds rest hds (numEnd_head rest hrest)
    have hempty : ds.isEmpty = false := by
      cases ds with
      | nil => exact absurd rfl hne
      | cons d r => rfl
    cases s with
    | true => simp [parseExponent, exponentText, exponentValue, hspan, hempty]
    | false => simp [parseExponent, exponentText, exponentValue, hspan, hempty]

theorem exponent_head (exponent : Option (Bool × List Char)) (rest : List Char)
    (hrest : numEnd rest) :
    ∀ c r, exponentText exponent ++ rest = c :: r → isDigit c = false ∧ c ≠ '.' := by
  intro c r h
  cases exponent with
  | none =>
    simp only [exponentText, List.nil_append] at h
    subst h
    exact ⟨hrest.1, hrest.2.1⟩
  | some sd =>
    simp only [exponentText, List.cons_append] at h
    have hc : c = 'e' := (List.cons.inj h).1.symm
    subst hc
    exact ⟨by decide, by decide⟩

theorem parseFraction_tail (negative : Bool) (intDigits fracDigits : List Char)
    (tail : List Char)
    (hfrac : ∀ c ∈ fracDigits, isDigit c = true)
    (htail : ∀ c r, tail = c :: r → isDigit c = false ∧ c ≠ '.') :
    parseFraction negative intDigits (fractionText fracDigits ++ tail)
    = parseExponent negative (intDigits ++ fracDigits) fracDigits.length tail := by
  cases fracDigits with
  | nil =>
    cases tail with
    | nil => simp [parseFraction, fractionText]
    | cons c r => simp [parseFraction, fractionText, (htail c r rfl).2]
  | cons d ds =>
    have hspan := spanDigits_append (d :: ds) tail hfrac (fun c r h => (htail c r h).1)
    simp only [List.cons_append] at hspan
    simp [parseFraction, fractionText, hspan]

theorem fraction_head (fracDigits tail : List Char)
    (htail : ∀ c r, tail = c :: r → isDigit c = false) :
    ∀ c r, fractionText fracDigits ++ tail = c :: r → isDigit c = false := by
  intro c r h
  cases fracDigits with
  | nil =>
    simp only [fractionText, List.nil_append] at h
    exact htail c r h
  | cons f fs =>
    simp only [fractionText, List.cons_append] at h
    have hd : c = '.' := (List.cons.inj h).1.symm
    subst hd
    decide

theorem parseNumber_render (negative : Bool) (x : Lexeme) (hx : x.wellFormed)
    (rest : List Char) (hrest : numEnd rest) :
    parseNumber negative (x.render ++ rest)
      = .ok (.num (numberOfDecimal negative x.decimal.1 x.decimal.2), rest) := by
  obtain ⟨ints, fracs, exponent⟩ := x
  obtain ⟨⟨c, cs, hints, hzero⟩, hdig, hfrac, hexp⟩ := hx
  simp only at hints hzero hdig hfrac hexp
  subst hints
  have hc : isDigit c = true := hdig c (List.mem_cons_self _ _)
  have hcs : ∀ d ∈ cs, isDigit d = true := fun d hd => hdig d (List.mem_cons_of_mem _ hd)
  have hE := parseExponent_tail negative (c :: cs ++ fracs) fracs.length exponent rest
    hexp hrest
  have hF := parseFraction_tail negative (c :: cs) fracs _ hfrac
    (exponent_head exponent rest hrest)
  simp only [Lexeme.render, Lexeme.decimal, List.append_assoc, List.cons_append]
  by_cases h0 : c = '0'
  · have hnil := hzero h0
    subst hnil
    simp only [List.nil_append] at hF hE ⊢
    rw [parseNumber]
    simp only [hc, Bool.not_true, h0, if_true, Bool.false_eq_true, if_false]
    rw [← h0, hF, hE]
    simp [hc]
  · have hspan := spanDigits_append cs (fractionText fracs ++ (exponentText exponent ++ rest))
      hcs (fraction_head fracs _ (fun d r h => (exponent_head exponent rest hrest d r h).1))
    rw [parseNumber]
    simp only [hc, Bool.not_true, h0, if_false, Bool.false_eq_true, hspan]
    rw [hF, hE]
    simp

/-! ## The literal of a Number is a number literal -/

theorem stripZeros_ne_zero (fuel s : Nat) (p : Int) (h : s ≠ 0) :
    (stripZeros fuel s p).1 ≠ 0 := by
  induction fuel generalizing s p with
  | zero => exact h
  | succ f ih =>
    unfold stripZeros
    split
    · rename_i hs
      apply ih
      have := hs.2
      omega
    · exact h

theorem roundToDouble_zero (d : Nat) : roundToDouble 0 d = some (0, 0) := by
  simp [roundToDouble]

theorem decimalRatio_zero (p : Int) : (decimalRatio 0 p).1 = 0 := by
  unfold decimalRatio
  split <;> simp

theorem rounds_ne_zero (s m : Nat) (p e : Int) (hm : m ≠ 0)
    (h : roundToDouble (decimalRatio s p).1 (decimalRatio s p).2 = some (m, e)) : s ≠ 0 := by
  intro hs
  subst hs
  rw [decimalRatio_zero, roundToDouble_zero] at h
  cases h
  exact hm rfl

theorem shortestF_ne_zero (fuel k m : Nat) (e n0 : Int) (hm : m ≠ 0) :
    (shortestF fuel k m e n0).1 ≠ 0 := by
  induction fuel generalizing k with
  | zero =>
    unfold shortestF
    split
    · exact Nat.mul_ne_zero hm (pow_ne_zero _ (by decide))
    · exact Nat.mul_ne_zero hm (pow_ne_zero _ (by decide))
  | succ f ih =>
    simp only [shortestF]
    split_ifs
    all_goals first
      | exact ih _
      | exact Nat.succ_ne_zero _
      | (refine rounds_ne_zero _ m (n0 - (k : Int)) e hm ?_
         simp_all only [Bool.and_eq_true, decide_eq_true_eq])

theorem shortest_ne_zero (m : Nat) (e : Int) (hm : m ≠ 0) : (shortest m e).1 ≠ 0 :=
  stripZeros_ne_zero _ _ _ (shortestF_ne_zero _ _ _ _ _ hm)

theorem isDigit_zero : isDigit '0' = true := by decide

theorem layoutDigits_wellFormed (c : Char) (cs : List Char) (n : Int)
    (hdig : ∀ d ∈ c :: cs, isDigit d = true) (hc : c ≠ '0') :
    (layoutDigits (c :: cs) n).wellFormed := by
  unfold layoutDigits
  split_ifs with h1 h2 h3
  · refine ⟨⟨c, cs ++ List.replicate _ '0', rfl, fun h => absurd h hc⟩, ?_, ?_, ?_⟩
    · intro d hd
      rcases List.mem_append.1 hd with hd | hd
      · exact hdig d hd
      · rw [List.eq_of_mem_replicate hd]; exact isDigit_zero
    · intro d hd; cases hd
    · intro s ds h; cases h
  · obtain ⟨j, hj⟩ : ∃ j, n.toNat = j + 1 := ⟨n.toNat - 1, by omega⟩
    refine ⟨⟨c, cs.take j, by simp [hj], fun h => absurd h hc⟩, ?_, ?_, ?_⟩
    · intro d hd
      exact hdig d (List.mem_of_mem_take hd)
    · intro d hd
      exact hdig d (List.mem_of_mem_drop hd)
    · intro s ds h; cases h
  · refine ⟨⟨'0', [], rfl, fun _ => rfl⟩, ?_, ?_, ?_⟩
    · intro d hd
      simp at hd
      subst hd
      exact isDigit_zero
    · intro d hd
      rcases List.mem_append.1 hd with hd | hd
      · rw [List.eq_of_mem_replicate hd]; exact isDigit_zero
      · exact hdig d hd
    · intro s ds h; cases h
  · refine ⟨⟨c, [], rfl, fun h => absurd h hc⟩, ?_, ?_, ?_⟩
    · intro d hd
      exact hdig d (List.mem_of_mem_take hd)
    · intro d hd
      exact hdig d (List.mem_of_mem_drop hd)
    · intro s ds h
      simp only [Option.some.injEq, Prod.mk.injEq] at h
      obtain ⟨_, hds⟩ := h
      subst hds
      constructor
      · obtain ⟨d, r, hd, _⟩ := natDigits_head (n - 1).natAbs
        rw [hd]; exact List.cons_ne_nil _ _
      · exact natDigits_digits _

theorem numberLexeme_wellFormed (m : Nat) (e : Int) (hm : m ≠ 0) :
    (numberLexeme m e).wellFormed := by
  unfold numberLexeme
  obtain ⟨c, cs, hcd, hzero⟩ := natDigits_head (shortest m e).1
  have hdig := natDigits_digits (shortest m e).1
  rw [hcd] at hdig ⊢
  exact layoutDigits_wellFormed c cs _ hdig
    (fun h => shortest_ne_zero m e hm (hzero h).1)

theorem render_head (x : Lexeme) (hx : x.wellFormed) :
    ∃ c r, x.render = c :: r ∧ isDigit c = true := by
  obtain ⟨⟨c, cs, hints, _⟩, hdig, _, _⟩ := hx
  refine ⟨c, cs ++ (fractionText x.fracDigits ++ exponentText x.exponent), ?_, ?_⟩
  · simp [Lexeme.render, hints]
  · exact hdig c (by rw [hints]; exact List.mem_cons_self _ _)

/-! ## String literals are read back -/

theorem hex4_hexDigit : ∀ n < 32,
    hex4 '0' '0' (hexDigit (n / 16)) (hexDigit (n % 16)) = some n := by
  decide

theorem escapedChar_control (n : Nat) (h : n < 32) (rest : List Char) :
    escapedChar n rest = (Char.ofNat n, rest) := by
  unfold escapedChar
  have h1 : ¬ (0xD800 ≤ n ∧ n ≤ 0xDBFF) := by omega
  have h2 : ¬ (0xDC00 ≤ n ∧ n ≤ 0xDFFF) := by omega
  simp only [h1, h2, if_false]

theorem parseStrBodyF_escapeChar (f : Nat) (c : Char) (tail : List Char) :
    parseStrBodyF (f + 1) (escapeChar c ++ tail) = (parseStrBodyF f tail).map (prepend c) := by
  unfold escapeChar
  by_cases h1 : c = '"'
  · subst h1; simp [parseStrBodyF, unescape]
  by_cases h2 : c = '\\'
  · subst h2; simp [parseStrBodyF, unescape]
  by_cases h3 : c = Char.ofNat 8
  · subst h3; simp [parseStrBodyF, unescape]
  by_cases h4 : c = Char.ofNat 12
  · subst h4; simp [parseStrBodyF, unescape]
  by_cases h5 : c = '\n'
  · subst h5; simp [parseStrBodyF, unescape]
  by_cases h6 : c = '\r'
  · subst h6; simp [parseStrBodyF, unescape]
  by_cases h7 : c = '\t'
  · subst h7; simp [parseStrBodyF, unescape]
  by_cases h8 : c.toNat < 32
  · have hx := hex4_hexDigit c.toNat h8
    simp only [h1, h2, h3, h4, h5, h6, h7, h8, if_true, if_false]
    simp only [List.cons_append, List.nil_append]
    rw [parseStrBodyF]
    simp [hx, escapedChar_control c.toNat h8, Char.ofNat_toNat]
  · simp only [h1, h2, h3, h4, h5, h6, h7, h8, if_false]
    simp only [List.cons_append, List.nil_append]
    rw [parseStrBodyF.eq_def]
    simp [h1, h2, h8]

theorem parseStrBodyF_escape (cs rest : List Char) (f : Nat) (hf : cs.length < f) :
    parseStrBodyF f (escape cs ++ '"' :: rest) = .ok (cs, rest) := by
  induction cs generalizing f with
  | nil =>
    cases f with
    | zero => simp at hf
    | succ g => simp [escape, parseStrBodyF]
  | cons c cs ih =>
    cases f with
    | zero => simp at hf
    | succ g =>
      rw [escape, List.append_assoc, parseStrBodyF_escapeChar, ih g (by simpa using hf)]
      rfl

theorem escapeChar_length (c : Char) : 1 ≤ (escapeChar c).length := by
  unfold escapeChar
  split_ifs <;> simp

theorem escape_length (cs : List Char) : cs.length ≤ (escape cs).length := by
  induction cs with
  | nil => simp [escape]
  | cons c cs ih =>
    have := escapeChar_length c
    simp [escape]
    omega

theorem parseStrBody_escape (cs rest : List Char) :
    parseStrBody (escape cs ++ '"' :: rest) = .ok (cs, rest) := by
  unfold parseStrBody
  apply parseStrBodyF_escape
  have := escape_length cs
  simp
  omega

/-! ## Steps of the parser -/

theorem skipWs_cons (d : Char) (cs : List Char) (h : isWs d = false) :
    skipWs (d :: cs) = d :: cs := by
  simp [skipWs, h]

theorem parseElems_more (f : Nat) (cs cs1 r : List Char) (v : JSVal) (vs : List JSVal)
    (hv : parseValue f cs = .ok (v, ',' :: cs1))
    (hvs : parseElems f cs1 = .ok (vs, r)) :
    parseElems (f + 1) cs = .ok (v :: vs, r) := by
  simp [parseElems, hv, hvs, skipWs, isWs]

theorem parseElems_last (f : Nat) (cs r : List Char) (v : JSVal)
    (hv : parseValue f cs = .ok (v, ']' :: r)) :
    parseElems (f + 1) cs = .ok ([v], r) := by
  simp [parseElems, hv, skipWs, isWs]

theorem parseMembers_more (f : Nat) (body cs1 cs2 r k : List Char) (v : JSVal)
    (ms : List (String × JSVal))
    (hk : parseStrBody body = .ok (k, ':' :: cs1))
    (hv : parseValue f cs1 = .ok (v, ',' :: cs2))
    (hms : parseMembers f cs2 = .ok (ms, r)) :
    parseMembers (f + 1) ('"' :: body) = .ok ((String.mk k, v) :: ms, r) := by
  simp [parseMembers, hk, hv, hms, skipWs, isWs]

theorem parseMembers_last (f : Nat) (body cs1 r k : List Char) (v : JSVal)
    (hk : parseStrBody body = .ok (k, ':' :: cs1))
    (hv : parseValue f cs1 = .ok (v, '\x7d' :: r)) :
    parseMembers (f + 1) ('"' :: body) = .ok ([(String.mk k, v)], r) := by
  simp [parseMembers, hk, hv, skipWs, isWs]

theorem parseValue_array (f : Nat) (d : Char) (cs r : List Char) (xs : List JSVal)
    (hws : isWs d = false) (hd : d ≠ ']')
    (hxs : parseElems f (d :: cs) = .ok (xs, r)) :
    parseValue (f + 1) ('[' :: d :: cs) = .ok (.arr xs, r) := by
  have h1 : skipWs ('[' :: d :: cs) = '[' :: d :: cs := skipWs_cons _ _ (by decide)
  rw [parseValue, h1]
  simp [skipWs_cons d cs hws, hd, hxs]

theorem parseValue_object (f : Nat) (d : Char) (cs r : List Char)
    (ms : List (String × JSVal))
    (hws : isWs d = false) (hd : d ≠ '\x7d')
    (hms : parseMembers f (d :: cs) = .ok (ms, r)) :
    parseValue (f + 1) ('\x7b' :: d :: cs) = .ok (.obj (buildObject ms), r) := by
  have h1 : skipWs ('\x7b' :: d :: cs) = '\x7b' :: d :: cs := skipWs_cons _ _ (by decide)
  rw [parseValue, h1]
  simp [skipWs_cons d cs hws, hd, hms]

theorem parseValue_null (f : Nat) (rest : List Char) :
    parseValue (f + 1) ('n' :: 'u' :: 'l' :: 'l' :: rest) = .ok (.null, rest) := by
  simp [parseValue, skipWs, isWs, dropLit]

theorem digit_not_special (c : Char) (h : isDigit c = true) :
    isWs c = false ∧ c ≠ ']' ∧ c ≠ '\x7d' ∧ c ≠ '\x7b' ∧ c ≠ '[' ∧ c ≠ '"' ∧
    c ≠ 't' ∧ c ≠ 'f' ∧ c ≠ 'n' ∧ c ≠ '-' := by
  have key : ∀ d : Char, isDigit d = false → c ≠ d := by
    intro d hd hcd
    rw [hcd, hd] at h
    exact Bool.noConfusion h
  refine ⟨?_, key _ (by decide), key _ (by decide), key _ (by decide), key _ (by decide),
    key _ (by decide), key _ (by decide), key _ (by decide), key _ (by decide),
    key _ (by decide)⟩
  have h1 := key ' ' (by decide)
  have h2 := key '\t' (by decide)
  have h3 := key '\n' (by decide)
  have h4 := key '\r' (by decide)
  simp [isWs, h1, h2, h3, h4]

theorem parseValue_digit (f : Nat) (c : Char) (r : List Char) (hc : isDigit c = true) :
    parseValue (f + 1) (c :: r) = parseNumber false (c :: r) := by
  have hs := digit_not_special c hc
  rw [parseValue, skipWs_cons c r hs.1]
  simp only [hs.2.2.2.1, hs.2.2.2.2.1, hs.2.2.2.2.2.1, hs.2.2.2.2.2.2.1,
    hs.2.2.2.2.2.2.2.1, hs.2.2.2.2.2.2.2.2.1, hs.2.2.2.2.2.2.2.2.2, if_false]

theorem parseValue_minus (f : Nat) (r : List Char) :
    parseValue (f + 1) ('-' :: r) = parseNumber true r := by
  have h1 : skipWs ('-' :: r) = '-' :: r := skipWs_cons _ _ (by decide)
  rw [parseValue, h1]
  simp

theorem parseValue_serNum (f : Nat) (x : JSNum) (rest : List Char) (hrest : numEnd rest) :
    parseValue (f + 1) (serNum x ++ rest) = .ok (reread (.num x), rest) := by
  cases x with
  | infinite b =>
    simp only [serNum, reread, rereadNum, List.cons_append, List.nil_append]
    exact parseValue_null f rest
  | finite negative m e =>
    by_cases hm : m = 0
    · subst hm
      have hwf : Lexeme.wellFormed ⟨['0'], [], none⟩ :=
        ⟨⟨'0', [], rfl, fun _ => rfl⟩, by decide, by simp, by simp⟩
      have h := parseNumber_render false ⟨['0'], [], none⟩ hwf rest hrest
      simp only [serNum, formatNum, reread, rereadNum, if_true, List.cons_append,
        List.nil_append]
      rw [parseValue_digit f '0' rest (by decide)]
      simpa [Lexeme.render, Lexeme.decimal, fractionText, exponentText, exponentValue,
        digitsValue, numberOfDecimal] using h
    · have hwf := numberLexeme_wellFormed m e hm
      have h := parseNumber_render negative (numberLexeme m e) hwf rest hrest
      simp only [serNum, formatNum, reread, rereadNum, hm, if_false]
      cases negative with
      | true =>
        simp only [if_true, List.cons_append]
        rw [parseValue_minus, h]
      | false =>
        obtain ⟨c, r, hcr, hc⟩ := render_head _ hwf
        simp only [Bool.false_eq_true, if_false]
        rw [hcr] at h ⊢
        simp only [List.cons_append] at h ⊢
        rw [parseValue_digit f c _ hc, h]

/-! ## Shape of a serialized value -/

theorem ser_none (v : JSVal) (h : ser v = none) : v = .undefined := by
  cases v with
  | undefined => rfl
  | null => simp [ser] at h
  | bool b => cases b <;> simp [ser] at h
  | num n => simp [ser] at h
  | str s => simp [ser] at h
  | arr xs => simp [ser] at h
  | obj props => simp [ser] at h

theorem ser_undefined : ser .undefined = none := by rw [ser]

theorem serNum_head (x : JSNum) :
    ∃ c r, serNum x = c :: r ∧ isWs c = false ∧ c ≠ ']' ∧ c ≠ '\x7d' := by
  cases x with
  | infinite b => exact ⟨_, _, rfl, by decide, by decide, by decide⟩
  | finite negative m e =>
    by_cases hm : m = 0
    · subst hm
      exact ⟨'0', [], by simp [serNum, formatNum], by decide, by decide, by decide⟩
    · cases negative with
      | true =>
        exact ⟨'-', (numberLexeme m e).render, by simp [serNum, formatNum, hm],
          by decide, by decide, by decide⟩
      | false =>
        obtain ⟨c, r, hcr, hc⟩ := render_head _ (numberLexeme_wellFormed m e hm)
        have hs := digit_not_special c hc
        exact ⟨c, r, by simp [serNum, formatNum, hm, hcr], hs.1, hs.2.1, hs.2.2.1⟩

theorem ser_head (v : JSVal) (t : List Char) (h : ser v = some t) :
    ∃ c r, t = c :: r ∧ isWs c = false ∧ c ≠ ']' ∧ c ≠ '\x7d' := by
  cases v with
  | undefined => simp [ser] at h
  | null =>
    simp [ser] at h; subst h
    exact ⟨_, _, rfl, by decide, by decide, by decide⟩
  | bool b =>
    cases b <;> (simp [ser] at h; subst h; exact ⟨_, _, rfl, by decide, by decide, by decide⟩)
  | num n =>
    simp [ser] at h; subst h
    exact serNum_head n
  | str s =>
    simp [ser] at h; subst h
    exact ⟨_, _, rfl, by decide, by decide, by decide⟩
  | arr xs =>
    simp [ser] at h; subst h
    exact ⟨_, _, rfl, by decide, by decide, by decide⟩
  | obj props =>
    simp [ser] at h; subst h
    exact ⟨_, _, rfl, by decide, by decide, by decide⟩

theorem joinParts_cons (p : List Char) (ps : List (List Char)) (h : ps ≠ []) :
    joinParts (p :: ps) = p ++ ',' :: joinParts ps := by
  cases ps with
  | nil => exact absurd rfl h
  | cons q qs => simp [joinParts]

theorem joinParts_head (p : List Char) (ps : List (List Char)) (c : Char) (r : List Char)
    (h : p = c :: r) : ∃ r1, joinParts (p :: ps) = c :: r1 := by
  subst h
  cases ps with
  | nil => exact ⟨r, rfl⟩
  | cons q qs => exact ⟨r ++ ',' :: joinParts (q :: qs), by simp [joinParts]⟩

theorem serElems_cons (x : JSVal) (xs : List JSVal) (t : List Char) (h : ser x = some t) :
    serElems (x :: xs) = t :: serElems xs := by
  simp [serElems, h]

theorem serElems_undefined (xs : List JSVal) :
    serElems (.undefined :: xs) = ['n', 'u', 'l', 'l'] :: serElems xs := by
  simp [serElems, ser]

theorem serElems_ne_nil (xs : List JSVal) (h : xs ≠ []) : serElems xs ≠ [] := by
  cases xs with
  | nil => exact absurd rfl h
  | cons x xs =>
    cases hx : ser x with
    | none => simp [serElems, hx]
    | some t => simp [serElems, hx]

theorem serProps_cons (k : String) (v : JSVal) (ps : List (String × JSVal)) (t : List Char)
    (h : ser v = some t) :
    serProps ((k, v) :: ps) = (quote k ++ ':' :: t) :: serProps ps := by
  simp [serProps, h]

theorem serProps_undefined (k : String) (ps : List (String × JSVal)) :
    serProps ((k, .undefined) :: ps) = serProps ps := by
  simp [serProps, ser]

theorem rereadElems_cons (x : JSVal) (xs : List JSVal) (h : x ≠ .undefined) :
    rereadElems (x :: xs) = reread x :: rereadElems xs := by
  cases x with
  | undefined => exact absurd rfl h
  | null => rw [rereadElems]; intro h1; cases h1
  | bool b => rw [rereadElems]; intro h1; cases h1
  | num n => rw [rereadElems]; intro h1; cases h1
  | str s => rw [rereadElems]; intro h1; cases h1
  | arr ys => rw [rereadElems]; intro h1; cases h1
  | obj props => rw [rereadElems]; intro h1; cases h1

theorem rereadProps_cons (k : String) (v : JSVal) (ps : List (String × JSVal))
    (h : v ≠ .undefined) :
    rereadProps ((k, v) :: ps) = (k, reread v) :: rereadProps ps := by
  cases v with
  | undefined => exact absurd rfl h
  | null => rw [rereadProps]; intro h1; cases h1
  | bool b => rw [rereadProps]; intro h1; cases h1
  | num n => rw [rereadProps]; intro h1; cases h1
  | str s => rw [rereadProps]; intro h1; cases h1
  | arr ys => rw [rereadProps]; intro h1; cases h1
  | obj props => rw [rereadProps]; intro h1; cases h1

theorem rereadProps_undefined (k : String) (ps : List (String × JSVal)) :
    rereadProps ((k, .undefined) :: ps) = rereadProps ps := by
  rw [rereadProps]

theorem ser_some_ne (v : JSVal) (t : List Char) (h : ser v = some t) : v ≠ .undefined := by
  intro hv
  subst hv
  rw [ser_undefined] at h
  cases h

theorem serProps_nil (ps : List (String × JSVal)) (h : serProps ps = []) :
    rereadProps ps = [] := by
  induction ps with
  | nil => rw [rereadProps]
  | cons p ps ih =>
    obtain ⟨k, v⟩ := p
    cases hv : ser v with
    | none =>
      have := ser_none v hv
      subst this
      rw [serProps_undefined] at h
      rw [rereadProps_undefined]
      exact ih h
    | some t =>
      rw [serProps_cons k v ps t hv] at h
      cases h

theorem serProps_head (ps : List (String × JSVal)) (h : serProps ps ≠ []) :
    ∃ r, joinParts (serProps ps) = '"' :: r := by
  induction ps with
  | nil => exact absurd (by rw [serProps]) h
  | cons p ps ih =>
    obtain ⟨k, v⟩ := p
    cases hv : ser v with
    | none =>
      have := ser_none v hv
      subst this
      rw [serProps_undefined] at h ⊢
      exact ih h
    | some t =>
      rw [serProps_cons k v ps t hv]
      exact joinParts_head _ _ '"' (escape k.data ++ ['"'] ++ ':' :: t) (by simp [quote])

theorem numEnd_comma (r : List Char) : numEnd (',' :: r) :=
  ⟨by decide, by decide, by decide, by decide⟩

theorem numEnd_bracket (r : List Char) : numEnd (']' :: r) :=
  ⟨by decide, by decide, by decide, by decide⟩

theorem numEnd_brace (r : List Char) : numEnd ('\x7d' :: r) :=
  ⟨by decide, by decide, by decide, by decide⟩

/-! ## `JSON.parse` reads what `JSON.stringify` writes -/

mutual
theorem parseValue_ser : ∀ (v : JSVal) (t : List Char), ser v = some t →
    ∀ fuel rest, t.length ≤ fuel → numEnd rest →
      parseValue fuel (t ++ rest) = .ok (reread v, rest)
  | .undefined, t, ht => by rw [ser_undefined] at ht; cases ht
  | .null, t, ht => by
    intro fuel rest hlen _
    simp [ser] at ht; subst ht
    cases fuel with
    | zero => simp at hlen
    | succ f => simp [parseValue, skipWs, isWs, dropLit, reread]
  | .bool true, t, ht => by
    intro fuel rest hlen _
    simp [ser] at ht; subst ht
    cases fuel with
    | zero => simp at hlen
    | succ f => simp [parseValue, skipWs, isWs, dropLit, reread]
  | .bool false, t, ht => by
    intro fuel rest hlen _
    simp [ser] at ht; subst ht
    cases fuel with
    | zero => simp at hlen
    | succ f => simp [parseValue, skipWs, isWs, dropLit, reread]
  | .num n, t, ht => by
    intro fuel rest hlen hrest
    simp [ser] at ht; subst ht
    cases fuel with
    | zero =>
      obtain ⟨c, r, hcr, _⟩ := serNum_head n
      rw [hcr] at hlen; simp at hlen
    | succ f => exact parseValue_serNum f n rest hrest
  | .str s, t, ht => by
    intro fuel rest hlen _
    simp [ser] at ht; subst ht
    cases fuel with
    | zero => simp [quote] at hlen
    | succ f =>
      simp [quote, parseValue, skipWs, isWs, parseStrBody_escape, PResult.map, reread]
  | .arr xs, t, ht => by
    intro fuel rest hlen hrest
    simp [ser] at ht; subst ht
    have hE := parseElems_ser xs
    cases fuel with
    | zero => simp at hlen
    | succ f =>
      cases xs with
      | nil => simp [serElems, joinParts, parseValue, skipWs, isWs, reread, rereadElems]
      | cons x xs1 =>
        have hE1 := hE (by simp) f rest (by simp at hlen ⊢; omega)
        obtain ⟨c, r1, hj, hws, hb⟩ : ∃ c r1, joinParts (serElems (x :: xs1)) = c :: r1 ∧
            isWs c = false ∧ c ≠ ']' := by
          cases hx : ser x with
          | none =>
            have := ser_none x hx
            subst this
            rw [serElems_undefined]
            obtain ⟨r1, hj⟩ := joinParts_head ['n', 'u', 'l', 'l'] (serElems xs1) 'n'
              ['u', 'l', 'l'] rfl
            exact ⟨'n', r1, hj, by decide, by decide⟩
          | some sx =>
            obtain ⟨c, r, hcr, hws, hb, _⟩ := ser_head x sx hx
            rw [serElems_cons x xs1 sx hx]
            obtain ⟨r1, hj⟩ := joinParts_head sx (serElems xs1) c r hcr
            exact ⟨c, r1, hj, hws, hb⟩
        rw [hj] at hE1 ⊢
        have := parseValue_array f c (r1 ++ ']' :: rest) rest _ hws hb
          (by simpa using hE1)
        simpa [reread] using this
  | .obj props, t, ht => by
    intro fuel rest hlen hrest
    simp [ser] at ht; subst ht
    have hM := parseMembers_ser props
    cases fuel with
    | zero => simp at hlen
    | succ f =>
      by_cases hnil : serProps props = []
      · rw [hnil]
        simp [joinParts, parseValue, skipWs, isWs, reread, serProps_nil props hnil,
          buildObject]
      · obtain ⟨r1, hj⟩ := serProps_head props hnil
        have hM1 := hM hnil f rest (by simp at hlen ⊢; omega)
        rw [hj] at hM1 ⊢
        have := parseValue_object f '"' (r1 ++ '\x7d' :: rest) rest _
          (by decide) (by decide) (by simpa using hM1)
        simpa [reread] using this
theorem parseElems_ser : ∀ (xs : List JSVal), xs ≠ [] →
    ∀ fuel rest, (joinParts (serElems xs)).length < fuel →
      parseElems fuel (joinParts (serElems xs) ++ ']' :: rest) = .ok (rereadElems xs, rest)
  | [], h => absurd rfl h
  | x :: xs, _ => by
    intro fuel rest hlen
    have hrec := parseElems_ser xs
    obtain ⟨sx, y, hs, hr, hv⟩ : ∃ sx y, serElems (x :: xs) = sx :: serElems xs ∧
        rereadElems (x :: xs) = y :: rereadElems xs ∧
        ∀ f rest1, sx.length ≤ f → numEnd rest1 →
          parseValue f (sx ++ rest1) = .ok (y, rest1) := by
      cases hx : ser x with
      | none =>
        have := ser_none x hx
        subst this
        refine ⟨_, .null, serElems_undefined xs, by rw [rereadElems], ?_⟩
        intro f rest1 hf _
        cases f with
        | zero => simp at hf
        | succ g => exact parseValue_null g rest1
      | some sx =>
        exact ⟨sx, reread x, serElems_cons x xs sx hx,
          rereadElems_cons x xs (ser_some_ne x sx hx), parseValue_ser x sx hx⟩
    rw [hs] at hlen ⊢
    rw [hr]
    cases fuel with
    | zero => omega
    | succ f =>
      cases hxs : xs with
      | nil =>
        subst hxs
        simp only [serElems, joinParts, rereadElems] at hlen ⊢
        exact parseElems_last f _ rest y
          (hv f (']' :: rest) (by omega) (numEnd_bracket rest))
      | cons z zs =>
        have hne : serElems xs ≠ [] := serElems_ne_nil xs (by rw [hxs]; simp)
        rw [← hxs]
        rw [joinParts_cons _ _ hne] at hlen ⊢
        have hlen1 : sx.length + (joinParts (serElems xs)).length + 1 < f + 1 := by
          simpa [Nat.add_assoc] using hlen
        have h1 := hv f (',' :: (joinParts (serElems xs) ++ ']' :: rest)) (by omega)
          (numEnd_comma _)
        have h2 := hrec (by rw [hxs]; simp) f rest (by omega)
        have := parseElems_more f _ _ rest y (rereadElems xs) h1 h2
        simpa using this
theorem parseMembers_ser : ∀ (ps : List (String × JSVal)), serProps ps ≠ [] →
    ∀ fuel rest, (joinParts (serProps ps)).length < fuel →
      parseMembers fuel (joinParts (serProps ps) ++ '\x7d' :: rest)
        = .ok (rereadProps ps, rest)
  | [], h => absurd (by rw [serProps]) h
  | (k, v) :: ps, hne => by
    intro fuel rest hlen
    have hrec := parseMembers_ser ps
    cases hx : ser v with
    | none =>
      have := ser_none v hx
      subst this
      rw [serProps_undefined] at hne hlen ⊢
      rw [rereadProps_undefined]
      exact hrec hne fuel rest hlen
    | some sv =>
      have hv := parseValue_ser v sv hx
      rw [serProps_cons k v ps sv hx] at hlen ⊢
      rw [rereadProps_cons k v ps (ser_some_ne v sv hx)]
      cases fuel with
      | zero => omega
      | succ f =>
        by_cases hnil : serProps ps = []
        · rw [hnil] at hlen ⊢
          rw [serProps_nil ps hnil]
          simp only [joinParts] at hlen ⊢
          have hlen1 : sv.length < f := by
            simp [quote] at hlen; omega
          have hk : parseStrBody (escape k.data ++ '"' :: (':' :: (sv ++ '\x7d' :: rest)))
              = .ok (k.data, ':' :: (sv ++ '\x7d' :: rest)) := parseStrBody_escape _ _
          have hv1 := hv f ('\x7d' :: rest) (by omega) (numEnd_brace rest)
          have := parseMembers_last f _ _ rest k.data (reread v) hk hv1
          simpa [quote] using this
        · rw [joinParts_cons _ _ hnil] at hlen ⊢
          have hlen1 : sv.length + (joinParts (serProps ps)).length + 1 < f := by
            simp [quote] at hlen; omega
          have hk : parseStrBody (escape k.data ++ '"' ::
                (':' :: (sv ++ ',' :: (joinParts (serProps ps) ++ '\x7d' :: rest))))
              = .ok (k.data,
                ':' :: (sv ++ ',' :: (joinParts (serProps ps) ++ '\x7d' :: rest))) :=
            parseStrBody_escape _ _
          have hv1 := hv f (',' :: (joinParts (serProps ps) ++ '\x7d' :: rest)) (by omega)
            (numEnd_comma _)
          have h2 := hrec hnil f rest (by omega)
          have := parseMembers_more f _ _ _ rest k.data (reread v) (rereadProps ps) hk hv1 h2
          simpa [quote] using this
end

/-- Parsing undoes serialization up to the copy: `JSON.parse` reads the text
`JSON.stringify` writes for a value as the value `reread` gives. -/
theorem parse_stringify (v : JSVal) (text : String) (h : JSON.stringify v = some text) :
    JSON.parse text = .ok (reread v) := by
  unfold JSON.stringify at h
  cases ht : ser v with
  | none => rw [ht] at h; cases h
  | some t =>
    rw [ht] at h
    simp only [Option.map_some', Option.some.injEq] at h
    subst h
    have h := parseValue_ser v t ht (t.length + 1) [] (by omega) trivial
    simp only [List.append_nil] at h
    simp [JSON.parse, h, skipWs]

/-! ## Properties of an object -/

theorem getOwn_updateProp_same (o : List (String × JSVal)) (k : String) (v : JSVal)
    (h : (getOwn o k).isSome = true) : getOwn (updateProp o k v) k = some v := by
  induction o with
  | nil => simp [getOwn] at h
  | cons p ps ih =>
    obtain ⟨k0, w⟩ := p
    by_cases hk : k0 = k
    · simp [updateProp, getOwn, hk]
    · simp only [getOwn, hk, if_false] at h
      simp [updateProp, getOwn, hk, ih h]

theorem getOwn_updateProp_other (o : List (String × JSVal)) (k k1 : String) (v : JSVal)
    (h : k1 ≠ k) : getOwn (updateProp o k v) k1 = getOwn o k1 := by
  induction o with
  | nil => simp [updateProp]
  | cons p ps ih =>
    obtain ⟨k0, w⟩ := p
    by_cases hk : k0 = k
    · subst hk
      simp [updateProp, getOwn, Ne.symm h]
    · by_cases hk1 : k0 = k1
      · subst hk1
        simp [updateProp, getOwn, hk]
      · simp [updateProp, getOwn, hk, hk1, ih]

theorem getOwn_insertProp_same (o : List (String × JSVal)) (k : String) (v : JSVal)
    (h : getOwn o k = none) : getOwn (insertProp o k v) k = some v := by
  induction o with
  | nil => simp [insertProp, getOwn]
  | cons p ps ih =>
    obtain ⟨k0, w⟩ := p
    by_cases hk : k0 = k
    · simp [getOwn, hk] at h
    · simp only [getOwn, hk, if_false] at h
      unfold insertProp
      split
      · simp [getOwn]
      · simp [getOwn, hk, ih h]

theorem getOwn_insertProp_other (o : List (String × JSVal)) (k k1 : String) (v : JSVal)
    (h : k1 ≠ k) : getOwn (insertProp o k v) k1 = getOwn o k1 := by
  induction o with
  | nil => simp [insertProp, getOwn, Ne.symm h]
  | cons p ps ih =>
    obtain ⟨k0, w⟩ := p
    unfold insertProp
    split
    · simp [getOwn, Ne.symm h]
    · by_cases hk1 : k0 = k1
      · simp [getOwn, hk1]
      · simp [getOwn, hk1, ih]

theorem defineProp_getOwn_same (o : List (String × JSVal)) (k : String) (v : JSVal) :
    getOwn (defineProp o k v) k = some v := by
  unfold defineProp
  split
  · rename_i h
    exact getOwn_updateProp_same o k v h
  · rename_i h
    apply getOwn_insertProp_same
    cases hg : getOwn o k with
    | none => rfl
    | some w => simp [hg] at h

theorem defineProp_getOwn_other (o : List (String × JSVal)) (k k1 : String) (v : JSVal)
    (h : k1 ≠ k) : getOwn (defineProp o k v) k1 = getOwn o k1 := by
  unfold defineProp
  split
  · exact getOwn_updateProp_other o k k1 v h
  · exact getOwn_insertProp_other o k k1 v h

theorem defineProp_distinct (o : List (String × JSVal)) (k : String) (v : JSVal)
    (h : distinctKeys o = true) : distinctKeys (defineProp o k v) = true := by
  unfold defineProp
  split
  · clear * - h
    induction o with
    | nil => rfl
    | cons p ps ih =>
      obtain ⟨k0, w⟩ := p
      simp only [distinctKeys, Bool.and_eq_true] at h
      by_cases hk : k0 = k
      · simp [updateProp, hk, distinctKeys, h.2]
        subst hk
        simpa using h.1
      · simp only [updateProp, hk, if_false, distinctKeys, Bool.and_eq_true]
        refine ⟨?_, ih h.2⟩
        rw [getOwn_updateProp_other ps k k0 v hk]
        exact h.1
  · rename_i hnot
    have hnone : getOwn o k = none := by
      cases hg : getOwn o k with
      | none => rfl
      | some w => simp [hg] at hnot
    clear hnot
    induction o with
    | nil => simp [insertProp, distinctKeys, getOwn]
    | cons p ps ih =>
      obtain ⟨k0, w⟩ := p
      simp only [distinctKeys, Bool.and_eq_true] at h
      have hk : k0 ≠ k := by
        intro hk
        simp [getOwn, hk] at hnone
      simp only [getOwn, hk, if_false] at hnone
      unfold insertProp
      split
      · simp only [distinctKeys, Bool.and_eq_true]
        refine ⟨?_, h.1, h.2⟩
        simp [getOwn, hk, hnone]
      · simp only [distinctKeys, Bool.and_eq_true]
        refine ⟨?_, ih h.2 hnone⟩
        rw [getOwn_insertProp_other ps k k0 v hk]
        exact h.1

theorem foldl_defineProp_distinct (ms acc : List (String × JSVal))
    (h : distinctKeys acc = true) :
    distinctKeys (ms.foldl (fun o m => defineProp o m.1 m.2) acc) = true := by
  induction ms generalizing acc with
  | nil => exact h
  | cons m ms ih => exact ih _ (defineProp_distinct acc m.1 m.2 h)

theorem buildObject_distinct (ms : List (String × JSVal)) :
    distinctKeys (buildObject ms) = true :=
  foldl_defineProp_distinct ms [] rfl

theorem foldl_defineProp_getOwn (ms acc : List (String × JSVal)) (k : String)
    (h : distinctKeys ms = true) :
    getOwn (ms.foldl (fun o m => defineProp o m.1 m.2) acc) k
      = (getOwn ms k).orElse (fun _ => getOwn acc k) := by
  induction ms generalizing acc with
  | nil => simp [getOwn]
  | cons m ms ih =>
    obtain ⟨k0, v0⟩ := m
    simp only [distinctKeys, Bool.and_eq_true] at h
    simp only [List.foldl_cons]
    rw [ih _ h.2]
    by_cases hk : k0 = k
    · subst hk
      have hnone : getOwn ms k0 = none := by
        cases hg : getOwn ms k0 with
        | none => rfl
        | some w => simp [hg] at h
      simp [getOwn, hnone, defineProp_getOwn_same]
    · simp only [getOwn, hk, if_false]
      rw [defineProp_getOwn_other acc k0 k v0 (Ne.symm hk)]

theorem buildObject_getOwn (ms : List (String × JSVal)) (k : String)
    (h : distinctKeys ms = true) : getOwn (buildObject ms) k = getOwn ms k := by
  unfold buildObject
  rw [foldl_defineProp_getOwn ms [] k h]
  cases getOwn ms k <;> simp [getOwn]

theorem rereadProps_getOwn (ps : List (String × JSVal)) (k : String) (v : JSVal)
    (h : getOwn ps k = some v) (hv : v ≠ .undefined) :
    getOwn (rereadProps ps) k = some (reread v) := by
  induction ps with
  | nil => simp [getOwn] at h
  | cons p ps ih =>
    obtain ⟨k0, v0⟩ := p
    by_cases hu : v0 = .undefined
    · subst hu
      rw [rereadProps_undefined]
      by_cases hk : k0 = k
      · simp [getOwn, hk] at h
        exact absurd h.symm hv
      · simp only [getOwn, hk, if_false] at h
        exact ih h
    · rw [rereadProps_cons k0 v0 ps hu]
      by_cases hk : k0 = k
      · simp only [getOwn, hk, if_true, Option.some.injEq] at h ⊢
        rw [h]
      · simp only [getOwn, hk, if_false] at h ⊢
        exact ih h

theorem rereadProps_getOwn_none (ps : List (String × JSVal)) (k : String)
    (h : getOwn ps k = none) : getOwn (rereadProps ps) k = none := by
  induction ps with
  | nil => simp [rereadProps, getOwn]
  | cons p ps ih =>
    obtain ⟨k0, v0⟩ := p
    have hk : k0 ≠ k := by
      intro hk
      simp [getOwn, hk] at h
    simp only [getOwn, hk, if_false] at h
    by_cases hu : v0 = .undefined
    · subst hu
      rw [rereadProps_undefined]
      exact ih h
    · rw [rereadProps_cons k0 v0 ps hu]
      simp only [getOwn, hk, if_false]
      exact ih h

theorem rereadProps_distinct (ps : List (String × JSVal)) (h : distinctKeys ps = true) :
    distinctKeys (rereadProps ps) = true := by
  induction ps with
  | nil => simp [rereadProps, distinctKeys]
  | cons p ps ih =>
    obtain ⟨k0, v0⟩ := p
    simp only [distinctKeys, Bool.and_eq_true] at h
    by_cases hu : v0 = .undefined
    · subst hu
      rw [rereadProps_undefined]
      exact ih h.2
    · rw [rereadProps_cons k0 v0 ps hu]
      simp only [distinctKeys, Bool.and_eq_true]
      refine ⟨?_, ih h.2⟩
      have hnone : getOwn ps k0 = none := by
        cases hg : getOwn ps k0 with
        | none => rfl
        | some w => simp [hg] at h
      rw [rereadProps_getOwn_none ps k0 hnone]
      rfl

/-! ## What `JSON.parse` returns as an object -/

theorem parseExponent_num (negative : Bool) (digits : List Char) (fracLen : Nat)
    (cs r : List Char) (v : JSVal)
    (h : parseExponent negative digits fracLen cs = .ok (v, r)) : ∃ x, v = .num x := by
  unfold parseExponent at h
  split at h
  · simp at h
    exact ⟨_, h.1.symm⟩
  · split_ifs at h
    · simp only at h
      split_ifs at h
      all_goals
        simp at h
        exact ⟨_, h.1.symm⟩
    · simp at h
      exact ⟨_, h.1.symm⟩

theorem parseFraction_num (negative : Bool) (intDigits : List Char)
    (cs r : List Char) (v : JSVal)
    (h : parseFraction negative intDigits cs = .ok (v, r)) : ∃ x, v = .num x := by
  unfold parseFraction at h
  split at h
  · exact parseExponent_num _ _ _ _ _ _ h
  · split_ifs at h
    all_goals exact parseExponent_num _ _ _ _ _ _ h

theorem parseNumber_num (negative : Bool) (cs r : List Char) (v : JSVal)
    (h : parseNumber negative cs = .ok (v, r)) : ∃ x, v = .num x := by
  unfold parseNumber at h
  split at h
  · cases h
  · split_ifs at h
    all_goals exact parseFraction_num _ _ _ _ _ h

theorem parseValue_obj_distinct (fuel : Nat) (cs r : List Char) (doc : List (String × JSVal))
    (h : parseValue fuel cs = .ok (.obj doc, r)) : distinctKeys doc = true := by
  cases fuel with
  | zero => simp [parseValue] at h
  | succ f =>
    rw [parseValue] at h
    split at h
    · cases h
    · split_ifs at h
      · split at h
        · cases h
        · split_ifs at h
          · simp at h
            rw [h.1]
            rfl
          · split at h
            · simp at h
              rw [← h.1]
              exact buildObject_distinct _
            · cases h
      · split at h
        · cases h
        · split_ifs at h
          · simp at h
          · split at h
            · simp at h
            · cases h
      · cases hp : parseStrBody _ with
        | ok a => rw [hp] at h; simp [PResult.map] at h
        | syntaxError => rw [hp] at h; simp [PResult.map] at h
      · split at h
        · simp at h
        · cases h
      · split at h
        · simp at h
        · cases h
      · split at h
        · simp at h
        · cases h
      · obtain ⟨x, hx⟩ := parseNumber_num _ _ _ _ h
        cases hx
      · obtain ⟨x, hx⟩ := parseNumber_num _ _ _ _ h
        cases hx

theorem parse_obj_distinct (text : String) (doc : List (String × JSVal))
    (h : JSON.parse text = .ok (.obj doc)) : distinctKeys doc = true := by
  unfold JSON.parse at h
  split at h
  · rename_i v rest hv
    split_ifs at h
    simp at h
    subst h
    exact parseValue_obj_distinct _ _ _ _ hv
  · cases h

theorem stringify_obj (doc : List (String × JSVal)) :
    JSON.stringify (.obj doc)
      = some (String.mk ('\x7b' :: (joinParts (serProps doc) ++ ['\x7d']))) := by
  simp [JSON.stringify, ser]

/-- What `set` leaves in a document, and that `JSON.parse` reads it back: the
object with `key` defined as `value`. -/
theorem set_document (file key text : String) (doc : List (String × JSVal)) (value : JSVal)
    (shown : String) (now : Nat) (fs : FS)
    (hfile : fs file = some (.file text))
    (hparse : JSON.parse text = .ok (.obj doc))
    (hshown : toStr value = some shown) :
    ∃ written,
      JSON.stringify (.obj (assign doc key value)) = some written ∧
      JSON.parse written = .ok (reread (.obj (assign doc key value))) ∧
      set file key value now fs
        = log ("Key: " ++ key ++ ": " ++ shown ++ " set in " ++ file) now
            (FS.put fs file (some (.file written))) := by
  refine ⟨_, stringify_obj _, parse_stringify _ _ (stringify_obj _), ?_⟩
  simp [set, readFile, hfile, hparse, assignProp, writeFile, stringifyText, stringify_obj,
    hshown]

/-! ## The round trip of `set` and `get` (C1) -/

/-- C1, as stated, fails in six ways. After `set('user.json', 'nickname', '')`
the call `get('user.json', 'nickname')` logs the invalid-key outcome, the empty
string being falsy. After `set('user.json', '__proto__', 'x')` it logs
`[object Object]`, the assignment having reached the prototype setter. The
value `Infinity` is written as `null`, and `get` logs the invalid-key outcome.
The object `{toString: 'x'}` has no string form, and `get` logs the
file-not-found outcome. When the document is `log.txt` itself, the entry of
`set` is appended to it, it is no longer JSON, and `get` logs the file-not-found
outcome. And when the log cannot be appended to, `get` appends nothing and is
rejected. -/
theorem set_get_not_round_trip :
    ((get "user.json" "nickname" 2
        (set "user.json" "nickname" (.str "") 1 userFS).fs).fs logPath
      = some (.file ("Key: nickname:  set in user.json 1\n" ++
          "ERROR: nickname Invalid key on user.json 2\n"))) ∧
    ((get "user.json" "__proto__" 2
        (set "user.json" "__proto__" (.str "x") 1 userFS).fs).fs logPath
      = some (.file ("Key: __proto__: x set in user.json 1\n" ++ "[object Object] 2\n"))) ∧
    ((JSVal.num (.infinite false)).truthy = true ∧
      toStr (.num (.infinite false)) = some "Infinity" ∧
      (get "user.json" "big" 2
        (set "user.json" "big" (.num (.infinite false)) 1 userFS).fs).fs logPath
      = some (.file ("Key: big: Infinity set in user.json 1\n" ++
          "ERROR: big Invalid key on user.json 2\n"))) ∧
    ((JSVal.obj [("toString", .str "x")]).truthy = true ∧
      JSON.parse "\x7b\"toString\":\"x\"\x7d" = .ok (.obj [("toString", .str "x")]) ∧
      (get "user.json" "odd" 2
        (set "user.json" "odd" (.obj [("toString", .str "x")]) 1 userFS).fs).fs logPath
      = some (.file ("No such file or directory user.json 1\n" ++
          "No such file or directory user.json 2\n"))) ∧
    ((get "log.txt" "k" 2 (set "log.txt" "k" (.str "v") 1 logDocumentFS).fs).fs logPath
      = some (.file ("\x7b\"email\":\"a@b.c\",\"k\":\"v\"\x7dKey: k: v set in log.txt 1\n" ++
          "No such file or directory log.txt 2\n"))) ∧
    ((get "user.json" "k" 2 (set "user.json" "k" (.str "v") 1 blockedLogFS).fs).error
        = some .EISDIR ∧
      (get "user.json" "k" 2 (set "user.json" "k" (.str "v") 1 blockedLogFS).fs).fs logPath
        = some .dir) := by
  refine ⟨by decide, by decide, ⟨by rfl, by rfl, by decide⟩, ⟨by rfl, by rfl, by decide⟩,
    by decide, ⟨by decide, by decide⟩⟩

/-- C1, amended: on an existing document other than the log file, the log being
appendable, for every key that is not a `__proto__` missing from the document,
and every value that `JSON.stringify` writes and `JSON.parse` reads back as
itself, is truthy and has a string form, `set` followed by `get` resolves and
appends, after the entry of `set`, one entry whose message is the string form
of the value. -/
theorem set_then_get (file key text : String) (doc : List (String × JSVal)) (value : JSVal)
    (shown : String) (now now2 : Nat) (fs : FS)
    (hfile : fs file = some (.file text))
    (hparse : JSON.parse text = .ok (.obj doc))
    (hne : file ≠ logPath)
    (hlog : fs logPath ≠ some .dir)
    (hproto : key = "__proto__" → (getOwn doc key).isSome = true)
    (hjson : ∃ written, JSON.stringify value = some written ∧ JSON.parse written = .ok value)
    (htruthy : value.truthy = true)
    (hshown : toStr value = some shown) :
    ∃ stored,
      set file key value now fs = ⟨stored, none⟩ ∧
      get file key now2 stored = ⟨withEntry stored shown now2, none⟩ ∧
      withEntry stored shown now2 logPath
        = some (.file (logText fs ++
            ("Key: " ++ key ++ ": " ++ shown ++ " set in " ++ file ++ " " ++
              String.mk (natDigits now) ++ "\n") ++
            (shown ++ " " ++ String.mk (natDigits now2) ++ "\n"))) := by
  obtain ⟨written, _, hp, hset⟩ :=
    set_document file key text doc value shown now fs hfile hparse hshown
  obtain ⟨t, ht, hpt⟩ := hjson
  have hre : reread value = value := by
    have := parse_stringify value t ht
    rw [hpt] at this
    injection this with this
    exact this.symm
  have hvne : value ≠ .undefined := by
    intro hv
    subst hv
    simp [JSON.stringify, ser] at ht
  have hassign : assign doc key value = defineProp doc key value := by
    unfold assign
    split
    · rename_i h
      have := hproto h.1
      cases hg : getOwn doc key with
      | none => simp [hg] at this
      | some w => simp [hg] at h
    · rfl
  have hdist : distinctKeys (assign doc key value) = true := by
    rw [hassign]
    exact defineProp_distinct doc key value (parse_obj_distinct text doc hparse)
  have hown : getOwn (buildObject (rereadProps (assign doc key value))) key = some value := by
    rw [buildObject_getOwn _ _ (rereadProps_distinct _ hdist),
      rereadProps_getOwn _ key value (by rw [hassign]; exact defineProp_getOwn_same _ _ _)
        hvne, hre]
  have hlog1 : FS.put fs file (some (.file written)) logPath ≠ some .dir := by
    rw [put_other _ _ _ _ (Ne.symm hne)]; exact hlog
  have hstored : withEntry (FS.put fs file (some (.file written)))
      ("Key: " ++ key ++ ": " ++ shown ++ " set in " ++ file) now file
      = some (.file written) := by
    rw [withEntry_other _ _ _ _ hne, put_same]
  have hlog2 : withEntry (FS.put fs file (some (.file written)))
      ("Key: " ++ key ++ ": " ++ shown ++ " set in " ++ file) now logPath ≠ some .dir := by
    rw [withEntry_log]; simp
  refine ⟨_, by rw [hset, log_appends _ _ _ hlog1], ?_, ?_⟩
  · simp [get, readFile, hstored, hp, reread, readProp, getProp, hown, htruthy, hshown,
      log_appends _ _ _ hlog2]
  · rw [withEntry_log]
    simp [logText, withEntry_log, put_other _ _ _ _ (Ne.symm hne), logLine,
      String.append_assoc]

/-- Witness of the amended C1: the decimal `9.99` under the key `1`, an array
index, and a nested object under the key `address`. -/
theorem set_then_get_witness :
    ((get "user.json" "1" 2
        (set "user.json" "1" (.num (numberOfDecimal false 999 (-2))) 1 userFS).fs).fs logPath
      = some (.file ("Key: 1: 9.99 set in user.json 1\n" ++ "9.99 2\n"))) ∧
    (∃ stored,
      set "user.json" "1" (.num (numberOfDecimal false 999 (-2))) 1 userFS = ⟨stored, none⟩ ∧
      get "user.json" "1" 2 stored = ⟨withEntry stored "9.99" 2, none⟩) ∧
    (∃ stored,
      set "user.json" "address"
          (.obj [("city", .str "Oslo"), ("zip", .arr [.num (numberOfNat 1), .null])]) 1 userFS
        = ⟨stored, none⟩ ∧
      get "user.json" "address" 2 stored = ⟨withEntry stored "[object Object]" 2, none⟩) :=
  have h := set_then_get "user.json" "1" "\x7b\"email\":\"sroberts@talentpath.com\"\x7d"
    [("email", .str "sroberts@talentpath.com")] (.num (numberOfDecimal false 999 (-2)))
    "9.99" 1 2 userFS (by decide) (by rfl) (by decide) (by decide) (by decide)
    ⟨"9.99", by rfl, by rfl⟩ (by rfl) (by rfl)
  have ho := set_then_get "user.json" "address"
    "\x7b\"email\":\"sroberts@talentpath.com\"\x7d"
    [("email", .str "sroberts@talentpath.com")]
    (.obj [("city", .str "Oslo"), ("zip", .arr [.num (numberOfNat 1), .null])])
    "[object Object]" 1 2 userFS (by decide) (by rfl) (by decide) (by decide) (by decide)
    ⟨"\x7b\"city\":\"Oslo\",\"zip\":[1,null]\x7d", by rfl, by rfl⟩ (by rfl) (by rfl)
  ⟨by decide, by
    obtain ⟨stored, h1, h2, _⟩ := h
    exact ⟨stored, h1, h2⟩, by
    obtain ⟨stored, h1, h2, _⟩ := ho
    exact ⟨stored, h1, h2⟩⟩

/-! ## The NotFound outcome (C7) -/

/-- C7, as stated, fails when the log cannot be appended to (here `log.txt` is a
directory): `deleteFile('nofile.json')` on a missing file and `get` on a missing
file are rejected with the error of the append, and no entry is appended. -/
theorem notFound_rejects_when_log_blocked :
    blockedLogFS "nofile.json" = none ∧
    (deleteFile "nofile.json" 1 blockedLogFS).error = some .EISDIR ∧
    (deleteFile "nofile.json" 1 blockedLogFS).fs logPath = some .dir ∧
    (get "nofile.json" "email" 1 blockedLogFS).error = some .EISDIR := by
  refine ⟨by decide, by decide, by decide, by decide⟩

/-- C7, amended: the log being appendable, when the target file does not exist,
or its text is not JSON, `get`, `set` and `remove` append the entry
`No such file or directory <file>`, change nothing else in the file system and
resolve; so does `deleteFile` on a file that does not exist. -/
theorem notFound_handling (file key : String) (value : JSVal) (now : Nat) (fs : FS)
    (hlog : fs logPath ≠ some .dir)
    (hmissing : fs file = none ∨
      ∃ text, fs file = some (.file text) ∧ JSON.parse text = .syntaxError) :
    get file key now fs
        = ⟨withEntry fs ("No such file or directory " ++ file) now, none⟩ ∧
    set file key value now fs
        = ⟨withEntry fs ("No such file or directory " ++ file) now, none⟩ ∧
    remove file key now fs
        = ⟨withEntry fs ("No such file or directory " ++ file) now, none⟩ ∧
    (fs file = none →
      deleteFile file now fs
        = ⟨withEntry fs ("No such file or directory " ++ file) now, none⟩) ∧
    withEntry fs ("No such file or directory " ++ file) now logPath
      = some (.file (logText fs ++ ("No such file or directory " ++ file ++ " " ++
          String.mk (natDigits now) ++ "\n"))) ∧
    ∀ p, p ≠ logPath → withEntry fs ("No such file or directory " ++ file) now p = fs p := by
  refine ⟨?_, ?_, ?_, ?_, ?_, ?_⟩
  · rw [get_missing file key now fs hmissing, log_appends _ _ _ hlog]
  · rw [set_missing file key value now fs hmissing, log_appends _ _ _ hlog]
  · rw [remove_missing file key now fs hmissing, log_appends _ _ _ hlog]
  · intro h
    simp [deleteFile, unlink, h, log_appends _ _ _ hlog]
  · rw [withEntry_log]; rfl
  · intro p hp
    exact withEntry_other _ _ _ _ hp

/-- Witness of the amended C7: `deleteFile('nofile.json')` on a missing file
appends `No such file or directory nofile.json <ts>` and resolves; so does `get`
on a file whose text is not JSON, and on the text `{"a":1.}`. -/
theorem notFound_handling_witness :
    deleteFile "nofile.json" 1563221866619 userFS
      = ⟨withEntry userFS "No such file or directory nofile.json" 1563221866619, none⟩ ∧
    withEntry userFS "No such file or directory nofile.json" 1563221866619 logPath
      = some (.file "No such file or directory nofile.json 1563221866619\n") ∧
    get "broken.json" "email" 1563221866619 brokenFS
      = ⟨withEntry brokenFS ("No such file or directory " ++ "broken.json")
          1563221866619, none⟩ ∧
    get "a.json" "a" 1 (FS.put emptyFS "a.json" (some (.file "\x7b\"a\":1.\x7d")))
      = ⟨withEntry (FS.put emptyFS "a.json" (some (.file "\x7b\"a\":1.\x7d")))
          ("No such file or directory " ++ "a.json") 1, none⟩ :=
  ⟨(notFound_handling "nofile.json" "email" .null 1563221866619 userFS (by decide)
      (Or.inl (by decide))).2.2.2.1 (by decide), by decide,
    (notFound_handling "broken.json" "email" .null 1563221866619 brokenFS (by decide)
      (Or.inr ⟨"\x7b\"email\":", by decide, by rfl⟩)).1,
    (notFound_handling "a.json" "a" .null 1
      (FS.put emptyFS "a.json" (some (.file "\x7b\"a\":1.\x7d"))) (by decide)
      (Or.inr ⟨"\x7b\"a\":1.\x7d", by decide, by rfl⟩)).1⟩

/-! ## `get` on a present key (C4) -/

/-- C4, as stated, fails in three ways. When the document is `log.txt` itself,
the entry is appended to the document, which is therefore changed. When the
value is an object with an own property `toString` that is not a function, it
has no string form, and `get` logs `No such file or directory tea.json`. When
the log cannot be appended to, no entry is appended and `get` is rejected. -/
theorem get_value_not_always_logged :
    (logDocumentFS logPath = some (.file "\x7b\"email\":\"a@b.c\"\x7d") ∧
      (get "log.txt" "email" 1 logDocumentFS).fs "log.txt"
        = some (.file "\x7b\"email\":\"a@b.c\"\x7da@b.c 1\n")) ∧
    (JSON.parse "\x7b\"odd\":\x7b\"toString\":\"x\"\x7d\x7d"
        = .ok (.obj [("odd", .obj [("toString", .str "x")])]) ∧
      (JSVal.obj [("toString", .str "x")]).truthy = true ∧
      (get "odd.json" "odd" 1
        (FS.put emptyFS "odd.json"
          (some (.file "\x7b\"odd\":\x7b\"toString\":\"x\"\x7d\x7d")))).fs logPath
        = some (.file "No such file or directory odd.json 1\n")) ∧
    ((get "user.json" "email" 1 blockedLogFS).error = some .EISDIR ∧
      (get "user.json" "email" 1 blockedLogFS).fs logPath = some .dir) := by
  refine ⟨⟨by decide, by decide⟩, ⟨by rfl, by rfl, by decide⟩, ⟨by decide, by decide⟩⟩

/-- C4, amended: when the document has `key` mapped to a truthy value that has a
string form, and the log can be appended to, `get` resolves and appends one
entry whose message is that string form; every file other than the log is as it
was, and so the document, unless it is the log file itself. -/
theorem get_logs_value (file key text : String) (doc : List (String × JSVal))
    (value : JSVal) (shown : String) (now : Nat) (fs : FS)
    (hfile : fs file = some (.file text))
    (hparse : JSON.parse text = .ok (.obj doc))
    (hkey : getOwn doc key = some value)
    (htruthy : value.truthy = true)
    (hshown : toStr value = some shown)
    (hlog : fs logPath ≠ some .dir) :
    get file key now fs = ⟨withEntry fs shown now, none⟩ ∧
    withEntry fs shown now logPath = some (.file (logText fs ++ (shown ++ " " ++
      String.mk (natDigits now) ++ "\n"))) ∧
    (file ≠ logPath → withEntry fs shown now file = some (.file text)) ∧
    ∀ p, p ≠ logPath → withEntry fs shown now p = fs p := by
  refine ⟨?_, ?_, ?_, ?_⟩
  · simp [get, readFile, hfile, hparse, readProp, getProp, hkey, htruthy, hshown,
      log_appends _ _ _ hlog]
  · rw [withEntry_log]; rfl
  · intro hne
    rw [withEntry_other _ _ _ _ hne, hfile]
  · intro p hp
    exact withEntry_other _ _ _ _ hp

/-- Witness of the amended C4: `get('user.json','email')` appends
`sroberts@talentpath.com <ts>`; on the document `tea.json` the number `9.99` is
logged as `9.99`, the array `[1,2]` as `1,2`. -/
theorem get_logs_value_witness :
    (get "user.json" "email" 1563221866619 userFS
      = ⟨withEntry userFS "sroberts@talentpath.com" 1563221866619, none⟩ ∧
    withEntry userFS "sroberts@talentpath.com" 1563221866619 logPath
      = some (.file "sroberts@talentpath.com 1563221866619\n")) ∧
    (get "tea.json" "price" 5 teaFS = ⟨withEntry teaFS "9.99" 5, none⟩ ∧
      withEntry teaFS "9.99" 5 logPath = some (.file "9.99 5\n")) ∧
    (get "tea.json" "1" 5 teaFS = ⟨withEntry teaFS "1,2" 5, none⟩ ∧
      withEntry teaFS "1,2" 5 logPath = some (.file "1,2 5\n")) :=
  have h := get_logs_value "user.json" "email"
    "\x7b\"email\":\"sroberts@talentpath.com\"\x7d"
    [("email", .str "sroberts@talentpath.com")] (.str "sroberts@talentpath.com")
    "sroberts@talentpath.com" 1563221866619 userFS (by decide) (by rfl) (by rfl)
    (by rfl) (by rfl) (by decide)
  have hp := get_logs_value "tea.json" "price"
    "\x7b\"price\":9.99,\"name\":\"tea\",\"1\":[1,2],\"odd\":\x7b\"toString\":\"x\"\x7d\x7d"
    [("1", .arr [.num (numberOfNat 1), .num (numberOfNat 2)]),
      ("price", .num (numberOfDecimal false 999 (-2))), ("name", .str "tea"),
      ("odd", .obj [("toString", .str "x")])]
    (.num (numberOfDecimal false 999 (-2))) "9.99" 5 teaFS (by decide) (by rfl) (by rfl)
    (by rfl) (by rfl) (by decide)
  have ha := get_logs_value "tea.json" "1"
    "\x7b\"price\":9.99,\"name\":\"tea\",\"1\":[1,2],\"odd\":\x7b\"toString\":\"x\"\x7d\x7d"
    [("1", .arr [.num (numberOfNat 1), .num (numberOfNat 2)]),
      ("price", .num (numberOfDecimal false 999 (-2))), ("name", .str "tea"),
      ("odd", .obj [("toString", .str "x")])]
    (.arr [.num (numberOfNat 1), .num (numberOfNat 2)]) "1,2" 5 teaFS (by decide) (by rfl)
    (by rfl) (by rfl) (by rfl) (by decide)
  ⟨⟨h.1, by decide⟩, ⟨hp.1, by decide⟩, ⟨ha.1, by decide⟩⟩

/-! ## The invalid-key outcome (C2) and `remove` (C3) -/

/-- C2 fails on the code for a key the document lacks but every object
inherits: `remove('user.json', 'toString')` rewrites the file (here dropping the
spaces of the original text) and logs a removal, and
`get('user.json', 'constructor')` logs the built-in function, where the claim
says `ERROR: <key> Invalid key on user.json` and no write. -/
theorem remove_inherited_key :
    JSON.parse "\x7b \"email\": \"sroberts@talentpath.com\" \x7d"
      = .ok (.obj [("email", .str "sroberts@talentpath.com")]) ∧
    getOwn [("email", .str "sroberts@talentpath.com")] "toString" = none ∧
    spacedFS "user.json"
      = some (.file "\x7b \"email\": \"sroberts@talentpath.com\" \x7d") ∧
    ((remove "user.json" "toString" 1 spacedFS).fs "user.json",
        (remove "user.json" "toString" 1 spacedFS).fs logPath)
      = (some (.file "\x7b\"email\":\"sroberts@talentpath.com\"\x7d"),
          some (.file "Key: toString removed from user.json 1\n")) ∧
    (get "user.json" "constructor" 1 spacedFS).fs logPath
      = some (.file "function Object() \x7b [native code] \x7d 1\n") := by
  refine ⟨by rfl, rfl, by decide, by decide, by decide⟩

/-- C3 fails on the code for a key that is present with a falsy value: the
document `flags.json` has the key `visits`, mapped to `0`, and
`remove('flags.json', 'visits')` leaves the file as it was, key included, and
logs `ERROR: visits Invalid key on flags.json`, against the comment of the
source on that test, "error if key is not present in file object". -/
theorem remove_falsy_key :
    JSON.parse "\x7b\"visits\":0,\"name\":\"scott\"\x7d"
      = .ok (.obj [("visits", .num (numberOfNat 0)), ("name", .str "scott")]) ∧
    (getOwn [("visits", .num (numberOfNat 0)), ("name", .str "scott")] "visits").isSome
      = true ∧
    flagsFS "flags.json" = some (.file "\x7b\"visits\":0,\"name\":\"scott\"\x7d") ∧
    ((remove "flags.json" "visits" 1 flagsFS).fs "flags.json",
        (remove "flags.json" "visits" 1 flagsFS).fs logPath)
      = (some (.file "\x7b\"visits\":0,\"name\":\"scott\"\x7d"),
          some (.file "ERROR: visits Invalid key on flags.json 1\n")) := by
  refine ⟨by rfl, by rfl, by decide, by decide⟩

/-! ## `set` (C5) -/

/-- C5 fails on the code for the key `__proto__`:
`set('user.json', '__proto__', 'x')` rewrites the file without any key
`__proto__` and logs `Key: __proto__: x set in user.json`, against the
docstring "Sets the value of object[key] and rewrites object to file": a later
read of `object['__proto__']` does not give `x`. -/
theorem set_proto_key :
    userFS "user.json" = some (.file "\x7b\"email\":\"sroberts@talentpath.com\"\x7d") ∧
    ((set "user.json" "__proto__" (.str "x") 1 userFS).fs "user.json",
        (set "user.json" "__proto__" (.str "x") 1 userFS).fs logPath)
      = (some (.file "\x7b\"email\":\"sroberts@talentpath.com\"\x7d"),
          some (.file "Key: __proto__: x set in user.json 1\n")) ∧
    (get "user.json" "__proto__" 2
        (set "user.json" "__proto__" (.str "x") 1 userFS).fs).fs logPath
      = some (.file "Key: __proto__: x set in user.json 1\n[object Object] 2\n") := by
  refine ⟨by decide, by decide, by decide⟩

/-! ## `deleteFile` (C6) -/

/-- C6, as stated, fails in two ways. When the file is `log.txt` itself, the
entry `Removed log.txt` is appended after the unlink, so the file exists again
and a later `get` on it does recreate nothing but finds it. When the log cannot
be appended to, the file is removed but nothing is logged and the promise is
rejected. -/
theorem deleteFile_log_or_blocked :
    (loggedFS logPath = some (.file "sroberts@talentpath.com 1563221866619\n") ∧
      (deleteFile "log.txt" 1 loggedFS).fs "log.txt"
        = some (.file "Removed log.txt 1\n")) ∧
    (blockedLogFS "user.json"
        = some (.file "\x7b\"email\":\"sroberts@talentpath.com\"\x7d") ∧
      (deleteFile "user.json" 1 blockedLogFS).fs "user.json" = none ∧
      (deleteFile "user.json" 1 blockedLogFS).fs logPath = some .dir ∧
      (deleteFile "user.json" 1 blockedLogFS).error = some .EISDIR) := by
  refine ⟨⟨by decide, by decide⟩, ⟨by decide, by decide, by decide, by decide⟩⟩

/-- C6, amended: on an existing file other than the log, the log being
appendable, `deleteFile` removes the file, leaves every other file unchanged
and logs `Removed <file>`; a later `get`, `set` or `remove` on it logs
`No such file or directory <file>`, changes nothing else, and the file stays
absent: the behaviour on a file that was never created. -/
theorem deleteFile_then_notFound (file key text : String) (value : JSVal) (now now2 : Nat)
    (fs : FS)
    (hfile : fs file = some (.file text))
    (hne : file ≠ logPath)
    (hlog : fs logPath ≠ some .dir) :
    ∃ gone,
      deleteFile file now fs = ⟨gone, none⟩ ∧
      gone file = none ∧
      (∀ p, p ≠ file → p ≠ logPath → gone p = fs p) ∧
      gone logPath = some (.file (logText fs ++ ("Removed " ++ file ++ " " ++
        String.mk (natDigits now) ++ "\n"))) ∧
      get file key now2 gone
        = ⟨withEntry gone ("No such file or directory " ++ file) now2, none⟩ ∧
      set file key value now2 gone
        = ⟨withEntry gone ("No such file or directory " ++ file) now2, none⟩ ∧
      remove file key now2 gone
        = ⟨withEntry gone ("No such file or directory " ++ file) now2, none⟩ ∧
      withEntry gone ("No such file or directory " ++ file) now2 file = none ∧
      withEntry gone ("No such file or directory " ++ file) now2 logPath
        = some (.file (logText gone ++ ("No such file or directory " ++ file ++ " " ++
            String.mk (natDigits now2) ++ "\n"))) ∧
      ∀ p, p ≠ logPath → withEntry gone ("No such file or directory " ++ file) now2 p
        = gone p := by
  have hlog1 : FS.put fs file none logPath ≠ some .dir := by
    rw [put_other _ _ _ _ (Ne.symm hne)]; exact hlog
  have hgone : withEntry (FS.put fs file none) ("Removed " ++ file) now file = none := by
    rw [withEntry_other _ _ _ _ hne, put_same]
  have hlog2 : withEntry (FS.put fs file none) ("Removed " ++ file) now logPath
      ≠ some .dir := by
    rw [withEntry_log]; simp
  refine ⟨withEntry (FS.put fs file none) ("Removed " ++ file) now, ?_, hgone, ?_, ?_,
    ?_, ?_, ?_, ?_, ?_, ?_⟩
  · simp [deleteFile, unlink, hfile, log_appends _ _ _ hlog1]
  · intro p hp hpl
    rw [withEntry_other _ _ _ _ hpl, put_other _ _ _ _ hp]
  · rw [withEntry_log]
    simp [logText, put_other _ _ _ _ (Ne.symm hne), logLine, String.append_assoc]
  · rw [get_missing file key now2 _ (Or.inl hgone), log_appends _ _ _ hlog2]
  · rw [set_missing file key value now2 _ (Or.inl hgone), log_appends _ _ _ hlog2]
  · rw [remove_missing file key now2 _ (Or.inl hgone), log_appends _ _ _ hlog2]
  · rw [withEntry_other _ _ _ _ hne]; exact hgone
  · rw [withEntry_log]; rfl
  · intro p hp
    exact withEntry_other _ _ _ _ hp

/-- Witness of the amended C6: deleting `user.json` and reading it afterwards. -/
theorem deleteFile_then_notFound_witness :
    ((deleteFile "user.json" 1 userFS).fs "user.json",
      (deleteFile "user.json" 1 userFS).fs logPath,
      (get "user.json" "email" 2 (deleteFile "user.json" 1 userFS).fs).fs logPath)
      = (none, some (.file "Removed user.json 1\n"),
          some (.file "Removed user.json 1\nNo such file or directory user.json 2\n")) ∧
    ∃ gone,
      deleteFile "user.json" 1 userFS = ⟨gone, none⟩ ∧
      gone "user.json" = none ∧
      get "user.json" "email" 2 gone
        = ⟨withEntry gone ("No such file or directory " ++ "user.json") 2, none⟩ :=
  have h := deleteFile_then_notFound "user.json" "email"
    "\x7b\"email\":\"sroberts@talentpath.com\"\x7d" .null 1 2 userFS
    (by decide) (by decide) (by decide)
  ⟨by decide, by
    obtain ⟨gone, h1, h2, _, _, h5, _⟩ := h
    exact ⟨gone, h1, h2, h5⟩⟩

/-! ## One entry for each operation (C8) -/

/-- C8, as stated, fails. The log is the file `log.txt` of the same file system:
`deleteFile('log.txt')` removes the earlier entries before it appends its own,
and `set` and `remove` on `log.txt` overwrite them. And when the log cannot be
appended to (here `log.txt` is a directory) no entry is appended at all. -/
theorem log_not_always_extended :
    (loggedFS logPath = some (.file "sroberts@talentpath.com 1563221866619\n") ∧
      (deleteFile "log.txt" 1563221866620 loggedFS).fs logPath
        = some (.file "Removed log.txt 1563221866620\n")) ∧
    (logDocumentFS logPath = some (.file "\x7b\"email\":\"a@b.c\"\x7d") ∧
      (set "log.txt" "k" (.str "v") 1 logDocumentFS).fs logPath
        = some (.file "\x7b\"email\":\"a@b.c\",\"k\":\"v\"\x7dKey: k: v set in log.txt 1\n") ∧
      (remove "log.txt" "email" 1 logDocumentFS).fs logPath
        = some (.file "\x7b\x7dKey: email removed from log.txt 1\n")) ∧
    (blockedLogFS logPath = some .dir ∧
      (get "user.json" "email" 1 blockedLogFS).fs logPath = some .dir ∧
      (createFile ⟨true⟩ "user.json" 1 blockedLogFS).fs logPath = some .dir) := by
  refine ⟨⟨by decide, by decide⟩, ⟨by decide, by decide, by decide⟩,
    ⟨by decide, by decide, by decide⟩⟩

/-- C8, amended: the log being appendable, `get` on every target, `set`,
`remove` and `deleteFile` on a target other than the log file, and `createFile`
wherever its call of `fs.access` rejects (the file does not exist, or the
runtime validates the mode argument), resolve and leave the log equal to its
previous content followed by exactly one entry `<message> <epoch-millis>\n`. -/
theorem one_entry_per_operation (rt : Runtime) (file key : String) (value : JSVal)
    (now : Nat) (fs : FS)
    (hlog : fs logPath ≠ some .dir) :
    (∃ m, (get file key now fs).error = none ∧
      (get file key now fs).fs logPath
        = some (.file (logText fs ++ (m ++ " " ++ String.mk (natDigits now) ++ "\n")))) ∧
    (file ≠ logPath →
      (∃ m, (set file key value now fs).error = none ∧
        (set file key value now fs).fs logPath
          = some (.file (logText fs ++ (m ++ " " ++ String.mk (natDigits now) ++ "\n")))) ∧
      (∃ m, (remove file key now fs).error = none ∧
        (remove file key now fs).fs logPath
          = some (.file (logText fs ++ (m ++ " " ++ String.mk (natDigits now) ++ "\n")))) ∧
      (∃ m, (deleteFile file now fs).error = none ∧
        (deleteFile file now fs).fs logPath
          = some (.file (logText fs ++ (m ++ " " ++ String.mk (natDigits now) ++ "\n"))))) ∧
    (rt.validatesMode = true ∨ fs file = none →
      (createFile rt file now fs).error = none ∧
      (createFile rt file now fs).fs logPath
        = some (.file (logText fs ++ (file ++ " already exists" ++ " " ++
            String.mk (natDigits now) ++ "\n")))) := by
  refine ⟨?_, ?_, ?_⟩
  · obtain ⟨m, hm⟩ := get_shape file key now fs
    have := log_entry m now fs fs rfl hlog
    rw [hm]
    exact ⟨m, this.1, this.2⟩
  · intro hne
    refine ⟨?_, ?_, ?_⟩
    · obtain ⟨m, fs1, hm, hw⟩ := set_shape file key value now fs
      have := log_entry m now fs fs1 (writeStep_log fs fs1 file hw hne) hlog
      rw [hm]
      exact ⟨m, this.1, this.2⟩
    · obtain ⟨m, fs1, hm, hw⟩ := remove_shape file key now fs
      have := log_entry m now fs fs1 (writeStep_log fs fs1 file hw hne) hlog
      rw [hm]
      exact ⟨m, this.1, this.2⟩
    · obtain ⟨m, fs1, hm, hw⟩ := deleteFile_shape file now fs
      have := log_entry m now fs fs1 (writeStep_log fs fs1 file hw hne) hlog
      rw [hm]
      exact ⟨m, this.1, this.2⟩
  · intro h
    have hacc : ∃ e, access rt fs file .callback = .error e := by
      unfold access
      rcases h with h | h
      · rw [h]; exact ⟨_, rfl⟩
      · cases rt.validatesMode with
        | true => exact ⟨_, rfl⟩
        | false => simp only [h]; exact ⟨_, rfl⟩
    obtain ⟨e, he⟩ := hacc
    unfold createFile
    rw [he]
    exact log_entry (file ++ " already exists") now fs fs rfl hlog

/-- Witness of the amended C8, on the document `user.json` with one entry
already in the log. -/
theorem one_entry_per_operation_witness :
    ((get "user.json" "email" 1563221866620 loggedFS).fs logPath
      = some (.file
          "sroberts@talentpath.com 1563221866619\nsroberts@talentpath.com 1563221866620\n")) ∧
    (∃ m, (get "user.json" "email" 1563221866620 loggedFS).error = none ∧
      (get "user.json" "email" 1563221866620 loggedFS).fs logPath
        = some (.file (logText loggedFS ++
            (m ++ " " ++ String.mk (natDigits 1563221866620) ++ "\n")))) ∧
    (∃ m, (deleteFile "user.json" 1563221866620 loggedFS).error = none ∧
      (deleteFile "user.json" 1563221866620 loggedFS).fs logPath
        = some (.file (logText loggedFS ++
            (m ++ " " ++ String.mk (natDigits 1563221866620) ++ "\n")))) ∧
    ((createFile ⟨true⟩ "user.json" 1563221866620 loggedFS).error = none ∧
      (createFile ⟨true⟩ "user.json" 1563221866620 loggedFS).fs logPath
        = some (.file (logText loggedFS ++ ("user.json" ++ " already exists" ++ " " ++
            String.mk (natDigits 1563221866620) ++ "\n")))) :=
  ⟨by decide,
    (one_entry_per_operation ⟨true⟩ "user.json" "email" .null 1563221866620 loggedFS
      (by decide)).1,
    ((one_entry_per_operation ⟨true⟩ "user.json" "email" .null 1563221866620 loggedFS
      (by decide)).2.1 (by decide)).2.2,
    (one_entry_per_operation ⟨true⟩ "user.json" "email" .null 1563221866620 loggedFS
      (by decide)).2.2 (Or.inl rfl)⟩

/-! ## A failing append (C9) -/

/-- C9, as stated, fails: when `log.txt` cannot be appended to (here it is a
directory), the promise `get` returns is rejected with the error of the append,
and so is that of `deleteFile`. -/
theorem get_rejects_when_log_blocked :
    blockedLogFS logPath = some .dir ∧
    (get "user.json" "email" 1 blockedLogFS).error = some .EISDIR ∧
    (deleteFile "user.json" 1 blockedLogFS).error = some .EISDIR := by
  refine ⟨by decide, by decide, by decide⟩

/-- C9, amended: `get`, `set`, `remove` and `deleteFile` resolve exactly when the
append to the log succeeds; when it fails, the promise they return is rejected
with the error of the append. -/
theorem rejected_iff_append_fails (file key : String) (value : JSVal) (now : Nat) (fs : FS) :
    (((get file key now fs).error = none ↔ fs logPath ≠ some .dir) ∧
      (fs logPath = some .dir → (get file key now fs).error = some .EISDIR)) ∧
    (((set file key value now fs).error = none ↔ fs logPath ≠ some .dir) ∧
      (fs logPath = some .dir → (set file key value now fs).error = some .EISDIR)) ∧
    (((remove file key now fs).error = none ↔ fs logPath ≠ some .dir) ∧
      (fs logPath = some .dir → (remove file key now fs).error = some .EISDIR)) ∧
    (((deleteFile file now fs).error = none ↔ fs logPath ≠ some .dir) ∧
      (fs logPath = some .dir → (deleteFile file now fs).error = some .EISDIR)) := by
  refine ⟨?_, ?_, ?_, ?_⟩
  · obtain ⟨m, hm⟩ := get_shape file key now fs
    rw [hm]
    exact log_error m now fs fs Iff.rfl
  · obtain ⟨m, fs1, hm, hw⟩ := set_shape file key value now fs
    rw [hm]
    exact log_error m now fs fs1 (writeStep_blocked fs fs1 file hw)
  · obtain ⟨m, fs1, hm, hw⟩ := remove_shape file key now fs
    rw [hm]
    exact log_error m now fs fs1 (writeStep_blocked fs fs1 file hw)
  · obtain ⟨m, fs1, hm, hw⟩ := deleteFile_shape file now fs
    rw [hm]
    exact log_error m now fs fs1 (writeStep_blocked fs fs1 file hw)

/-- Witness of the amended C9: with an appendable log `get` resolves, with a
blocked log it is rejected. -/
theorem rejected_iff_append_fails_witness :
    (((get "user.json" "email" 1 userFS).error = none ↔ userFS logPath ≠ some .dir) ∧
      (userFS logPath = some .dir →
        (get "user.json" "email" 1 userFS).error = some .EISDIR)) ∧
    (((get "user.json" "email" 1 blockedLogFS).error = none
        ↔ blockedLogFS logPath ≠ some .dir) ∧
      (blockedLogFS logPath = some .dir →
        (get "user.json" "email" 1 blockedLogFS).error = some .EISDIR)) :=
  ⟨(rejected_iff_append_fails "user.json" "email" .null 1 userFS).1,
    (rejected_iff_append_fails "user.json" "email" .null 1 blockedLogFS).1⟩

/-! ## `createFile` (C10) -/

/-- C10, as stated, fails: on a file that does not exist, `createFile` appends
an entry to the log, whichever way the runtime treats the mode argument. -/
theorem createFile_logs_on_missing_file :
    userFS "new.json" = none ∧
    (createFile ⟨false⟩ "new.json" 1 userFS).fs logPath
      = some (.file "new.json already exists 1\n") ∧
    (createFile ⟨true⟩ "new.json" 1 userFS).fs logPath
      = some (.file "new.json already exists 1\n") := by
  refine ⟨by decide, by decide, by decide⟩

/-- C10, amended: `createFile` creates or changes no file other than the log, to
which it appends at most one entry; it resolves whenever the log can be appended
to; and on a file that exists, under a runtime that coerces the mode argument,
it changes nothing at all and appends nothing. -/
theorem createFile_effect (rt : Runtime) (file : String) (now : Nat) (fs : FS) :
    (∀ p, p ≠ logPath → (createFile rt file now fs).fs p = fs p) ∧
    ((createFile rt file now fs).fs logPath = fs logPath ∨
      ∃ m, (createFile rt file now fs).fs logPath
        = some (.file (logText fs ++ (m ++ " " ++ String.mk (natDigits now) ++ "\n")))) ∧
    (fs logPath ≠ some .dir → (createFile rt file now fs).error = none) ∧
    (rt.validatesMode = false → fs file ≠ none → createFile rt file now fs = ⟨fs, none⟩) := by
  refine ⟨?_, ?_, ?_, ?_⟩
  · intro p hp
    unfold createFile
    cases access rt fs file .callback with
    | ok u => rfl
    | error e =>
      by_cases hlog : fs logPath = some .dir
      · rw [log_blocked _ _ _ hlog]
      · rw [log_appends _ _ _ hlog]; exact withEntry_other _ _ _ _ hp
  · unfold createFile
    cases access rt fs file .callback with
    | ok u => exact Or.inl rfl
    | error e =>
      by_cases hlog : fs logPath = some .dir
      · rw [log_blocked _ _ _ hlog]; exact Or.inl rfl
      · exact Or.inr ⟨_, (log_entry (file ++ " already exists") now fs fs rfl hlog).2⟩
  · intro hlog
    unfold createFile
    cases access rt fs file .callback with
    | ok u => rfl
    | error e => exact (log_entry (file ++ " already exists") now fs fs rfl hlog).1
  · intro hrt hf
    unfold createFile access
    rw [hrt]
    cases h : fs file with
    | none => exact absurd h hf
    | some node => rfl

/-- Witness of the amended C10: `createFile('user.json')` on the existing
document changes nothing. -/
theorem createFile_effect_witness :
    createFile ⟨false⟩ "user.json" 1 userFS = ⟨userFS, none⟩ ∧
    (createFile ⟨false⟩ "new.json" 1 userFS).fs "new.json" = none :=
  ⟨(createFile_effect ⟨false⟩ "user.json" 1 userFS).2.2.2 rfl (by decide),
    by rw [(createFile_effect ⟨false⟩ "new.json" 1 userFS).1 "new.json" (by decide)]; decide⟩

end Db
